import Mathlib

/-!
Verification of the RBC CSV Exporter extraction/normalization pipeline.

The JavaScript sources (src/js/utils.js, src/js/csvExporter.js,
src/js/transactionExtractor.js, src/popup.js) are shallowly embedded below:
strings are lists of characters, JavaScript regular expressions are
transliterated into a small backtracking matcher (`RE` / `reM`) that mirrors
ECMAScript leftmost-priority semantics, JavaScript numbers produced by
`parseFloat` are modelled exactly as signed decimals (with explicit
infinities; binary-double rounding is approximated by exact arithmetic, which
no theorem below depends on), and the DOM is abstracted by records holding
the results of the exact queries the source performs.
-/

/-- JavaScript strings are modelled as lists of characters. -/
abbrev Str := List Char

/-- Shorthand turning a Lean string literal into the `Str` model. -/
def lc (s : String) : Str := s.toList

/-- The ECMAScript whitespace set recognized by `String.prototype.trim` and
by the regex class `\s`. -/
def jsWs (c : Char) : Bool :=
  c = ' ' ∨ c = '\t' ∨ c = '\n' ∨ c = '\x0b' ∨ c = '\x0c' ∨ c = '\r' ∨
  c = ' ' ∨ c = ' ' ∨ (' ' ≤ c ∧ c ≤ ' ') ∨
  c = ' ' ∨ c = ' ' ∨ c = ' ' ∨ c = ' ' ∨
  c = '　' ∨ c = '﻿'

/-- JavaScript `String.prototype.trim`: strip leading and trailing whitespace. -/
def jsTrim (s : Str) : Str :=
  ((s.dropWhile jsWs).reverse.dropWhile jsWs).reverse

/-- Whether `pre` is an initial segment of `s` (used for `includes`/`startsWith`). -/
def leadsWith (pre s : Str) : Bool :=
  match pre, s with
  | [], _ => true
  | _ :: _, [] => false
  | p :: ps, c :: cs => p = c && leadsWith ps cs

/-- JavaScript `String.prototype.includes`: substring containment. -/
def jsIncludes (s needle : Str) : Bool :=
  match s with
  | [] => leadsWith needle []
  | _ :: cs => leadsWith needle s || jsIncludes cs needle

/-- ASCII lower-casing of a single character (`String.prototype.toLowerCase`
restricted to the ASCII range, the only range the source compares against). -/
def lowerChar (c : Char) : Char :=
  if 'A' ≤ c ∧ c ≤ 'Z' then Char.ofNat (c.toNat + 32) else c

/-- JavaScript `String.prototype.toLowerCase` (ASCII). -/
def toLowerStr (s : Str) : Str := s.map lowerChar

/-- JavaScript `String.prototype.padStart(2, '0')`. -/
def padStart2 (s : Str) : Str :=
  if s.length ≥ 2 then s else
  if s.length = 1 then '0' :: s else ['0', '0']

/-- Join a list of strings with a separator (JavaScript `Array.prototype.join`). -/
def joinSep (sep : Str) : List Str → Str
  | [] => []
  | [x] => x
  | x :: xs => x ++ sep ++ joinSep sep xs

example : jsTrim (lc "  ab c  ") = lc "ab c" := by decide
example : jsIncludes (lc "cc-date pda") (lc "cc-date") = true := by decide
example : jsIncludes (lc "xcc-datx") (lc "cc-date") = false := by decide
example : toLowerStr (lc "OcT") = lc "oct" := by decide
example : padStart2 (lc "7") = lc "07" := by decide
example : joinSep (lc ",") [lc "a", lc "b", lc "c"] = lc "a,b,c" := by decide

/-! ### A small backtracking regex matcher

ECMAScript regexes used by the source are transliterated into this syntax.
`reM` enumerates every way a prefix of the input can match, in ECMAScript
backtracking priority order (alternation left first, greedy repetition
longest first, lazy repetition shortest first), so the head of the returned
list is the match the JavaScript engine selects. -/

/-- Regex syntax: empty, character class, sequencing, prioritized alternation,
repetition (greedy or lazy), capturing group, and word boundary. -/
inductive RE where
  | eps : RE
  | cls (p : Char → Bool) : RE
  | seq (a b : RE) : RE
  | alt (a b : RE) : RE
  | star (a : RE) (lz : Bool) : RE
  | grp (n : Nat) (a : RE) : RE
  | bnd : RE

/-- Number of syntax nodes, used to bound the matcher's fuel. -/
def reSize : RE → Nat
  | .eps => 1
  | .cls _ => 1
  | .seq a b => reSize a + reSize b + 1
  | .alt a b => reSize a + reSize b + 1
  | .star a _ => reSize a + 1
  | .grp _ a => reSize a + 1
  | .bnd => 1

/-- Minimal number of characters any match of the regex consumes. -/
def reMinLen : RE → Nat
  | .eps => 0
  | .cls _ => 1
  | .seq a b => reMinLen a + reMinLen b
  | .alt a b => min (reMinLen a) (reMinLen b)
  | .star _ _ => 0
  | .grp _ a => reMinLen a
  | .bnd => 0

/-- Capture store: group index to captured text. -/
abbrev Caps := Nat → Option Str

/-- Matcher state: remaining input, previously consumed character (for word
boundaries), and the captures recorded so far. -/
structure MSt where
  rest : Str
  prv : Option Char
  caps : Caps

/-- Record a capture for group `n`. -/
def updCaps (caps : Caps) (n : Nat) (v : Str) : Caps :=
  fun m => if m = n then some v else caps m

/-- ECMAScript `\w` (word character), for `\b` boundaries. -/
def wordChar (c : Char) : Bool :=
  ('a' ≤ c ∧ c ≤ 'z') ∨ ('A' ≤ c ∧ c ≤ 'Z') ∨ ('0' ≤ c ∧ c ≤ '9') ∨ c = '_'

/-- Whether a word boundary holds between the previous character and the rest. -/
def atBoundary (prv : Option Char) (rest : Str) : Bool :=
  let l := match prv with | none => false | some c => wordChar c
  let r := match rest with | [] => false | c :: _ => wordChar c
  l ≠ r

/-- All ways a prefix of `st.rest` can match `r`, in ECMAScript priority
order.  A repetition iteration must consume input (ECMAScript stops a
quantifier when its body matches empty).  Fuel strictly decreases on every
recursive call; callers pass enough for all searches to complete. -/
def reM : Nat → RE → MSt → List MSt
  | 0, _, _ => []
  | fuel + 1, r, st =>
    match r with
    | .eps => [st]
    | .cls p =>
      match st.rest with
      | [] => []
      | c :: cs => if p c then [⟨cs, some c, st.caps⟩] else []
    | .seq a b => (reM fuel a st).flatMap (reM fuel b)
    | .alt a b => reM fuel a st ++ reM fuel b st
    | .star a lz =>
      let stop := [st]
      let go :=
        ((reM fuel a st).filter (fun st' => st'.rest.length < st.rest.length)).flatMap
          (reM fuel (.star a lz))
      if lz then stop ++ go else go ++ stop
    | .grp n a =>
      (reM fuel a st).map (fun st' =>
        ⟨st'.rest, st'.prv, updCaps st'.caps n (st.rest.take (st.rest.length - st'.rest.length))⟩)
    | .bnd => if atBoundary st.prv st.rest then [st] else []

/-- Fuel sufficient for any search of `r` over `s`. -/
def reFuel (r : RE) (s : Str) : Nat := (s.length + 2) * (reSize r + 2)

/-- Anchored match (a `^...$` regex): first full-consumption match from the
start of the string, returning its captures. -/
def reFullMatch (r : RE) (s : Str) : Option Caps :=
  (((reM (reFuel r s) r ⟨s, none, fun _ => none⟩).filter
      (fun st => st.rest = [])).head?).map MSt.caps

/-- Unanchored search (JavaScript `String.prototype.match` with a non-global
regex): text before the match, the matched text, the captures, and the text
after the match, for the leftmost (then highest-priority) match. -/
def reSearchAux (r : RE) : Str → Option Char → Str → Option (Str × Str × Caps × Str)
  | s, prv, pre =>
    match (reM (reFuel r s) r ⟨s, prv, fun _ => none⟩).head? with
    | some st =>
      some (pre.reverse, s.take (s.length - st.rest.length), st.caps, st.rest)
    | none =>
      match s with
      | [] => none
      | c :: cs => reSearchAux r cs (some c) (c :: pre)

/-- Search from the start of the string. -/
def reSearch (r : RE) (s : Str) : Option (Str × Str × Caps × Str) :=
  reSearchAux r s none []

/-- `match[0]` of an unanchored search, or `none` when there is no match. -/
def reSearchHit (r : RE) (s : Str) : Option Str :=
  (reSearch r s).map (fun t => t.2.1)

/-! Constructors for the regex shapes the source uses. -/

/-- Literal character. -/
def reChr (c : Char) : RE := .cls (fun x => x = c)

/-- Case-insensitive literal character (the `/i` flag). -/
def reChrCI (c : Char) : RE := .cls (fun x => lowerChar x = lowerChar c)

/-- `\d`. -/
def reDigit : RE := .cls (fun c => '0' ≤ c ∧ c ≤ '9')

/-- `\s`. -/
def reWs : RE := .cls jsWs

/-- `.` (any character but a line terminator). -/
def reDot : RE := .cls (fun c => ¬(c = '\n' ∨ c = '\r' ∨ c = ' ' ∨ c = ' '))

/-- Sequence a list of regexes. -/
def reSeqL (l : List RE) : RE := l.foldr .seq .eps

/-- Case-sensitive literal word. -/
def reWord (w : String) : RE := reSeqL (w.toList.map reChr)

/-- Case-insensitive literal word. -/
def reWordCI (w : String) : RE := reSeqL (w.toList.map reChrCI)

/-- Left-biased alternation of a head and further choices. -/
def reAlts (h : RE) (t : List RE) : RE := t.foldl .alt h

/-- `r+` (greedy). -/
def rePlus (r : RE) : RE := .seq r (.star r false)

/-- `r+?` (lazy). -/
def rePlusLazy (r : RE) : RE := .seq r (.star r true)

/-- `r?` (greedy). -/
def reOpt (r : RE) : RE := .alt r .eps

/-- `r{n}`. -/
def reRepN (r : RE) (n : Nat) : RE := reSeqL (List.replicate n r)

/-- `r{1,2}` (greedy: two first). -/
def reRep12 (r : RE) : RE := .alt (reSeqL [r, r]) r

/-- `r{2,4}` (greedy: four first). -/
def reRep24 (r : RE) : RE := .alt (reRepN r 4) (.alt (reRepN r 3) (reRepN r 2))

/-! ### src/js/utils.js: field normalizers and classifiers -/

/-- The month-name alternation from the source, in source order (short names
first, then long names, with `May` listed twice). -/
def monthAltNames : List String :=
  ["Jan", "Feb", "Mar", "Apr", "May", "Jun", "Jul", "Aug", "Sep", "Oct", "Nov", "Dec",
   "January", "February", "March", "April", "May", "June", "July", "August",
   "September", "October", "November", "December"]

/-- `(Jan|Feb|...|December)` with the `/i` flag. -/
def reMonthAlt : RE :=
  reAlts (reWordCI "Jan") ((monthAltNames.drop 1).map reWordCI)

/-- `/^(Jan|...|December)\s+(\d{1,2}),?\s+(\d{4})$/i` (normalizeDate pattern 1). -/
def monthNamePattern : RE :=
  reSeqL [.grp 1 reMonthAlt, rePlus reWs, .grp 2 (reRep12 reDigit),
    reOpt (reChr ','), rePlus reWs, .grp 3 (reRepN reDigit 4)]

/-- `/^(\d{1,2})\/(\d{1,2})\/(\d{4})$/` (normalizeDate pattern 2). -/
def mmddyyyyPattern : RE :=
  reSeqL [.grp 1 (reRep12 reDigit), reChr '/', .grp 2 (reRep12 reDigit),
    reChr '/', .grp 3 (reRepN reDigit 4)]

/-- `/^(\d{1,2})-(\d{1,2})-(\d{4})$/` (normalizeDate pattern 3). -/
def mmddyyyyDashPattern : RE :=
  reSeqL [.grp 1 (reRep12 reDigit), reChr '-', .grp 2 (reRep12 reDigit),
    reChr '-', .grp 3 (reRepN reDigit 4)]

/-- `/^(\d{4})-(\d{1,2})-(\d{1,2})$/` (normalizeDate pattern 4). -/
def yyyymmddPattern : RE :=
  reSeqL [.grp 1 (reRepN reDigit 4), reChr '-', .grp 2 (reRep12 reDigit),
    reChr '-', .grp 3 (reRep12 reDigit)]

/-- The `monthNames` lookup table from `normalizeDate`. -/
def monthNames : List (String × String) :=
  [("jan", "01"), ("feb", "02"), ("mar", "03"), ("apr", "04"),
   ("may", "05"), ("jun", "06"), ("jul", "07"), ("aug", "08"),
   ("sep", "09"), ("oct", "10"), ("nov", "11"), ("dec", "12"),
   ("january", "01"), ("february", "02"), ("march", "03"), ("april", "04"),
   ("june", "06"), ("july", "07"), ("august", "08"),
   ("september", "09"), ("october", "10"), ("november", "11"), ("december", "12")]

/-- `monthNames[key]`; an absent key is JavaScript `undefined`, which the
template literal would render as the text "undefined" (unreachable for the
names the alternation can capture). -/
def monthLookup (key : Str) : Str :=
  match (monthNames.find? (fun p => lc p.1 = key)) with
  | some p => lc p.2
  | none => lc "undefined"

/-- `normalizeDate` (src/js/utils.js:7): normalize a date string to
DD/MM/YYYY via four anchored patterns, returning the trimmed input when none
matches. -/
def normalizeDate (dateStr : Str) : Str :=
  let trimmedDate := jsTrim dateStr
  match reFullMatch monthNamePattern trimmedDate with
  | some caps =>
    match caps 1, caps 2, caps 3 with
    | some monthName, some day, some year =>
      padStart2 day ++ '/' :: monthLookup (toLowerStr monthName) ++ '/' :: year
    | _, _, _ => trimmedDate
  | none =>
  match reFullMatch mmddyyyyPattern trimmedDate with
  | some caps =>
    match caps 1, caps 2, caps 3 with
    | some month, some day, some year =>
      padStart2 day ++ '/' :: padStart2 month ++ '/' :: year
    | _, _, _ => trimmedDate
  | none =>
  match reFullMatch mmddyyyyDashPattern trimmedDate with
  | some caps =>
    match caps 1, caps 2, caps 3 with
    | some month, some day, some year =>
      padStart2 day ++ '/' :: padStart2 month ++ '/' :: year
    | _, _, _ => trimmedDate
  | none =>
  match reFullMatch yyyymmddPattern trimmedDate with
  | some caps =>
    match caps 1, caps 2, caps 3 with
    | some year, some month, some day =>
      padStart2 day ++ '/' :: padStart2 month ++ '/' :: year
    | _, _, _ => trimmedDate
  | none => trimmedDate

example : normalizeDate (lc "10/21/2025") = lc "21/10/2025" := by decide
example : normalizeDate (lc "Oct 21, 2025") = lc "21/10/2025" := by decide

/-- `[\d,]+\.\d{2}` — the numeric core shared by the amount patterns. -/
def reAmountCore : RE :=
  reSeqL [rePlus (.cls (fun c => ('0' ≤ c ∧ c ≤ '9') ∨ c = ',')), reChr '.',
    reDigit, reDigit]

/-- `/^\([\d,]+\.\d{2}\)$/` — parenthesized negative (pattern 6). -/
def amountParenPattern : RE := reSeqL [reChr '(', reAmountCore, reChr ')']

/-- `/^\$\([\d,]+\.\d{2}\)$/` — dollar-parenthesized negative (pattern 7). -/
def amountDollarParenPattern : RE :=
  reSeqL [reChr '$', reChr '(', reAmountCore, reChr ')']

/-- The seven anchored `amountPatterns` of `isAmount` (src/js/utils.js:92). -/
def amountPatterns : List RE :=
  [reSeqL [reOpt (reChr '$'), reOpt (reChr '-'), reAmountCore],
   reSeqL [reOpt (reChr '-'), reChr '$', reAmountCore],
   reAmountCore,
   reSeqL [reChr '$', reAmountCore],
   reSeqL [reChr '-', reAmountCore],
   amountParenPattern,
   amountDollarParenPattern]

/-- `isAmount` (src/js/utils.js:88): full-string match of the trimmed text
against any of the seven amount shapes; the empty string is falsy. -/
def isAmount (text : Str) : Bool :=
  if text = [] then false
  else
    let cleanText := jsTrim text
    amountPatterns.any (fun p => (reFullMatch p cleanText).isSome)

/-- `\d{1,2}` then sep then `\d{1,2}` then sep then `\d{2,4}`. -/
def reNumDate (sep : Char) : RE :=
  reSeqL [reRep12 reDigit, reChr sep, reRep12 reDigit, reChr sep, reRep24 reDigit]

/-- The five anchored `datePatterns` of `isDate` (src/js/utils.js:74). -/
def datePatternsAnchored : List RE :=
  [reNumDate '/',
   reNumDate '-',
   reSeqL [reRepN reDigit 4, reChr '-', reRep12 reDigit, reChr '-', reRep12 reDigit],
   reSeqL [.grp 1 reMonthAlt, rePlus reWs, reRep12 reDigit, reOpt (reChr ','),
     rePlus reWs, reRepN reDigit 4],
   reSeqL [.grp 1 reMonthAlt, rePlus reWs, reRep12 reDigit, rePlus reWs,
     reRepN reDigit 4]]

/-- `isDate` (src/js/utils.js:74): full-string match of the trimmed text
against any of the five date shapes. -/
def isDate (text : Str) : Bool :=
  datePatternsAnchored.any (fun p => (reFullMatch p (jsTrim text)).isSome)

/-! ### JavaScript numbers

`parseFloat` results are modelled exactly: a finite value is a signed
decimal `(-1)^neg * sig * 10^exp`, infinities are explicit, and `NaN` is
`none`.  `toFixed(2)` rounds that exact decimal (the binary-double rounding
step of a real JavaScript engine is approximated by exact arithmetic; no
theorem below depends on the digits it produces, only on its output being
non-empty). -/
structure DecNum where
  neg : Bool
  sig : Nat
  exp : Int
  deriving DecidableEq

/-- A JavaScript number as produced by `parseFloat`. -/
inductive JSNum where
  | num (d : DecNum) : JSNum
  | posInf : JSNum
  | negInf : JSNum
  deriving DecidableEq

/-- ASCII decimal digit test. -/
def isDigitB (c : Char) : Bool := '0' ≤ c ∧ c ≤ '9'

/-- Value of a digit string as a natural number. -/
def digitsValN (ds : Str) : Nat :=
  ds.foldl (fun a c => 10 * a + (c.toNat - '0'.toNat)) 0

/-- JavaScript `parseFloat` after whitespace skipping: optional sign,
`Infinity` or a decimal significand with optional exponent; `none` when no
numeric prefix exists. -/
def jsParseFloatCore (t : Str) : Option JSNum :=
  let signNeg : Bool := match t with | '-' :: _ => true | _ => false
  let u : Str := match t with
    | '-' :: r => r
    | '+' :: r => r
    | _ => t
  if leadsWith (lc "Infinity") u then
    some (if signNeg then .negInf else .posInf)
  else
    let intDigits := u.takeWhile isDigitB
    let u2 := u.dropWhile isDigitB
    let fracDigits : Str := match u2 with
      | '.' :: r => r.takeWhile isDigitB
      | _ => []
    let u3 : Str := match u2 with
      | '.' :: r => r.dropWhile isDigitB
      | _ => u2
    if intDigits = [] ∧ fracDigits = [] then none
    else
      let expo : ℤ := match u3 with
        | e :: r =>
          if e = 'e' ∨ e = 'E' then
            match r with
            | '-' :: d => let ds := d.takeWhile isDigitB
                          if ds = [] then 0 else -(digitsValN ds : ℤ)
            | '+' :: d => let ds := d.takeWhile isDigitB
                          if ds = [] then 0 else (digitsValN ds : ℤ)
            | d => let ds := d.takeWhile isDigitB
                   if ds = [] then 0 else (digitsValN ds : ℤ)
          else 0
        | [] => 0
      some (.num ⟨signNeg, digitsValN (intDigits ++ fracDigits),
        expo - fracDigits.length⟩)

/-- JavaScript `parseFloat`: skip whitespace, then parse. -/
def jsParseFloat (s : Str) : Option JSNum := jsParseFloatCore (s.dropWhile jsWs)

/-- Decimal digits of a natural number. -/
def natDigits (n : Nat) : Str := Nat.toDigits 10 n

/-- `|value| * 100` of a decimal, rounded half away from zero to a natural. -/
def decScaled2 (d : DecNum) : Nat :=
  let e2 : Int := d.exp + 2
  if 0 ≤ e2 then d.sig * 10 ^ e2.toNat
  else
    let den := 10 ^ (-e2).toNat
    (2 * d.sig + den) / (2 * den)

/-- JavaScript `Number.prototype.toFixed(2)`. -/
def toFixed2 : JSNum → Str
  | .posInf => lc "Infinity"
  | .negInf => lc "-Infinity"
  | .num d =>
    let n := decScaled2 d
    (if d.neg ∧ d.sig ≠ 0 then ['-'] else []) ++ natDigits (n / 100) ++
      '.' :: (if n % 100 < 10 then '0' :: natDigits (n % 100) else natDigits (n % 100))

/-- `normalizeAmount` (src/js/utils.js:60): strip `$` and `,`, parse as a
float; return the input unchanged when parsing fails, else a fixed
two-decimal rendering (the source's conditional has identical branches). -/
def normalizeAmount (amountStr : Str) : Str :=
  let cleanAmount := amountStr.filter (fun c => ¬(c = ',' ∨ c = '$'))
  match jsParseFloat cleanAmount with
  | none => amountStr
  | some num =>
    if leadsWith (lc "-") amountStr ∨ jsIncludes amountStr (lc "(") then
      toFixed2 num
    else toFixed2 num

example : isAmount (lc "$123.45") = true := by decide
example : isAmount (lc "(123.45)") = true := by decide
example : isAmount (lc "$(123.45)") = true := by decide
example : isAmount (lc "123") = false := by decide
example : isAmount (lc "abc") = false := by decide
example : isDate (lc "10/21/25") = true := by decide
example : isDate (lc "October 21 2025") = true := by decide
example : isDate (lc "hello") = false := by decide
example : normalizeAmount (lc "$1,234.50") = lc "1234.50" := by decide
example : normalizeAmount (lc "(123.45)") = lc "(123.45)" := by decide
example : normalizeAmount (lc "-$5.25") = lc "-5.25" := by decide

/-! ### src/js/utils.js: transaction records, validator, description split -/

/-- The canonical transaction record.  Field order mirrors the object
literal in `parseRBCTransactionRow`; `source` and `page` are the extra
fields PDF-parsed records carry (vertical coordinates are modelled as
integers: the source only subtracts, takes absolute values of, and orders
them). -/
structure Transaction where
  date : Str := []
  description : Str := []
  vendor : Str := []
  amount : Str := []
  type : Str := []
  balance : Str := []
  reference : Str := []
  accountType : Str := []
  source : Str := []
  page : Option Int := none
  deriving DecidableEq

/-- `isValidTransaction` (src/js/utils.js:108): truthy description longer
than 2 after trim, or truthy amount that is non-empty after trim (the date
is only read for logging). -/
def isValidTransaction (transaction : Transaction) : Bool :=
  let hasDescription :=
    transaction.description ≠ [] ∧ (jsTrim transaction.description).length > 2
  let hasAmount := transaction.amount ≠ [] ∧ (jsTrim transaction.amount).length > 0
  hasDescription || hasAmount

/-- Split a string on every occurrence of a literal separator
(JavaScript `String.prototype.split` with a string argument). -/
def splitOnSepAux (sep : Str) : Nat → Str → Str → List Str
  | _, [], cur => [cur.reverse]
  | 0, s, cur => [cur.reverse ++ s]
  | f + 1, c :: cs, cur =>
    if leadsWith sep (c :: cs) then
      cur.reverse :: splitOnSepAux sep f ((c :: cs).drop sep.length) []
    else splitOnSepAux sep f cs (c :: cur)

/-- `s.split(sep)` for a non-empty literal separator. -/
def splitOnSep (sep s : Str) : List Str := splitOnSepAux sep (s.length + 1) s []

example : splitOnSep (lc " - ") (lc "a - b - c") = [lc "a", lc "b", lc "c"] := by decide

/-- `/\s+from\s+/i`. -/
def reFromSep : RE := reSeqL [rePlus reWs, reWordCI "from", rePlus reWs]

/-- `/\s+to\s+/i`. -/
def reToSep : RE := reSeqL [rePlus reWs, reWordCI "to", rePlus reWs]

/-- Result of `parseDescriptionAndVendor`. -/
structure DescVendor where
  description : Str
  vendor : Str
  deriving DecidableEq

/-- First two fields of a regex split: the text before the first match and
the text between the first and second matches (or after the first when it is
the only one). -/
def splitFirstTwo (r : RE) (text : Str) : Option (Str × Str) :=
  match reSearch r text with
  | none => none
  | some (pre, _, _, post) =>
    match reSearch r post with
    | none => some (pre, post)
    | some (pre2, _, _, _) => some (pre, pre2)

/-- `parseDescriptionAndVendor` (src/js/utils.js:382): split one free-text
block into description and vendor by " - ", else " from ", else " to ". -/
def parseDescriptionAndVendor (text : Str) : DescVendor :=
  if jsIncludes text (lc " - ") then
    let parts := splitOnSep (lc " - ") text
    if parts.length ≥ 2 then
      { description := jsTrim (parts.headD []),
        vendor := jsTrim ((parts.getLast?).getD []) }
    else { description := text, vendor := [] }
  else if jsIncludes (toLowerStr text) (lc " from ") then
    match splitFirstTwo reFromSep text with
    | some (p0, p1) => { description := jsTrim p0, vendor := jsTrim p1 }
    | none => { description := text, vendor := [] }
  else if jsIncludes (toLowerStr text) (lc " to ") then
    match splitFirstTwo reToSep text with
    | some (p0, p1) => { description := jsTrim p0, vendor := jsTrim p1 }
    | none => { description := text, vendor := [] }
  else { description := text, vendor := [] }

example :
    parseDescriptionAndVendor (lc "Contactless Interac purchase - 5619 - STORE") =
      { description := lc "Contactless Interac purchase", vendor := lc "STORE" } := by
  decide

example :
    parseDescriptionAndVendor (lc "Interac e-Transfer From JOHN DOE") =
      { description := lc "Interac e-Transfer", vendor := lc "JOHN DOE" } := by
  decide

/-! ### src/js/utils.js: parseRBCTransactionRow over an abstract DOM row -/

/-- Abstraction of one `<tr>`: each field holds the result of exactly one of
the DOM queries `parseRBCTransactionRow` performs (`none` when the selector
finds no element; attribute text otherwise).  `ccWithdrawText`/`ccDepositText`
are the credit-branch selectors (`td.rbc-transaction-list-withdraw span` /
`...-deposit span`), `dbWithdrawText`/`dbDepositText` the broader
debit-branch ones, `cellTexts` the text of all `td, th` cells in order, and
`balanceText` the balance-column selector. -/
structure Row where
  firstCellHeaders : Option Str := none
  dateCellText : Option Str := none
  idAttr : Str := []
  textContent : Str := []
  descDivTexts : Option (List Str) := none
  ccWithdrawText : Option Str := none
  ccDepositText : Option Str := none
  dbWithdrawText : Option Str := none
  dbDepositText : Option Str := none
  cellTexts : List Str := []
  balanceText : Option Str := none

/-- `/(\d{4}-\d{2}-\d{2})/` used against the row id. -/
def reIsoInRowId : RE :=
  .grp 1 (reSeqL [reRepN reDigit 4, reChr '-', reRepN reDigit 2, reChr '-',
    reRepN reDigit 2])

/-- The five row-text date search patterns (src/js/utils.js:207), in order. -/
def rowTextDatePatterns : List RE :=
  [reSeqL [.bnd, .grp 1 reMonthAlt, rePlus reWs, reRep12 reDigit, reOpt (reChr ','),
     rePlus reWs, reRepN reDigit 4, .bnd],
   reSeqL [.bnd, .grp 1 reMonthAlt, rePlus reWs, reRep12 reDigit, rePlus reWs,
     reRepN reDigit 4, .bnd],
   reSeqL [.bnd, reRepN reDigit 4, reChr '-', reRepN reDigit 2, reChr '-',
     reRepN reDigit 2, .bnd],
   reSeqL [.bnd, reRep12 reDigit, reChr '/', reRep12 reDigit, reChr '/',
     reRepN reDigit 4, .bnd],
   reSeqL [.bnd, reRep12 reDigit, reChr '-', reRep12 reDigit, reChr '-',
     reRepN reDigit 4, .bnd]]

/-- First `match[0]` over an ordered pattern list. -/
def firstSearchHit (pats : List RE) (s : Str) : Option Str :=
  match pats with
  | [] => none
  | p :: ps =>
    match reSearchHit p s with
    | some m => some m
    | none => firstSearchHit ps s

/-- `transaction.amount.replace(/^-\$?/, '')`. -/
def stripLeadMinusDollar (s : Str) : Str :=
  match s with
  | '-' :: '$' :: r => r
  | '-' :: r => r
  | _ => s

/-- Credit-branch deposit amount: strip a leading minus, ensure a dollar
sign (src/js/utils.js:315). -/
def creditDepositAmount (row : Row) : Str :=
  match row.ccDepositText with
  | some d =>
    if jsTrim d ≠ [] then
      let cleanAmount := stripLeadMinusDollar (jsTrim d)
      if leadsWith (lc "$") cleanAmount then cleanAmount else '$' :: cleanAmount
    else []
  | none => []

/-- Credit-branch amount: force the withdraw column negative, else the
deposit column positive (src/js/utils.js:306). -/
def creditAmount (row : Row) : Str :=
  match row.ccWithdrawText with
  | some w =>
    if jsTrim w ≠ [] then
      let amountText := jsTrim w
      if leadsWith (lc "$") amountText then '-' :: amountText
      else '-' :: '$' :: amountText
    else creditDepositAmount row
  | none => creditDepositAmount row

/-- Debit-branch amount: withdraw column as-is, else deposit column
(src/js/utils.js:327). -/
def debitAmount (row : Row) : Str :=
  let a0 : Str := match row.dbWithdrawText with
    | some w => jsTrim w
    | none => []
  if a0 = [] then
    match row.dbDepositText with
    | some d => jsTrim d
    | none => []
  else a0

/-- First amount-classified cell text (src/js/utils.js:343). -/
def firstAmountCell : List Str → Str
  | [] => []
  | c :: cs =>
    let text := jsTrim c
    if isAmount text then text else firstAmountCell cs

/-- Account-type detection from the `headers` attribute of the first cell
(src/js/utils.js:181). -/
def rbcAccountType (row : Row) : Str :=
  let headersAttr := row.firstCellHeaders.getD []
  let isCredit := headersAttr ≠ [] && jsIncludes headersAttr (lc "cc-date")
  let isDebit := headersAttr ≠ [] && jsIncludes headersAttr (lc "pda-date")
  if isCredit then lc "credit" else if isDebit then lc "debit" else lc "unknown"

/-- Date extraction cascade: date cell, then row id, then row text
(src/js/utils.js:189). -/
def rbcDate (row : Row) : Str :=
  let date1 : Str := match row.dateCellText with
    | some t => normalizeDate (jsTrim t)
    | none => []
  let date2 : Str :=
    if date1 ≠ [] then date1
    else
      match reSearchHit reIsoInRowId row.idAttr with
      | some m => normalizeDate m
      | none => []
  if date2 ≠ [] then date2
  else
    match firstSearchHit rowTextDatePatterns row.textContent with
    | some m => normalizeDate m
    | none => []

/-- Description/vendor extraction (src/js/utils.js:224): account-type-aware
parsing of the description cell's divs, else the longest-cell fallback. -/
def rbcDescVendor (row : Row) : Str × Str :=
  match row.descDivTexts with
  | some divTexts =>
    let descriptions := divTexts.filterMap (fun d =>
      let text := jsTrim d
      if text ≠ [] then some text else none)
    if rbcAccountType row = lc "credit" then
      if descriptions.length ≥ 1 then
        let text := descriptions.headD []
        let desc :=
          if jsIncludes (toLowerStr text) (lc "payment") then lc "Payment"
          else if jsIncludes (toLowerStr text) (lc "refund") then lc "Refund"
          else lc "Purchase"
        (desc, text)
      else ([], [])
    else
      if descriptions.length ≥ 2 then
        (descriptions.headD [], (descriptions.drop 1).headD [])
      else if descriptions.length = 1 then
        let parsed := parseDescriptionAndVendor (descriptions.headD [])
        (parsed.description, parsed.vendor)
      else ([], [])
  | none =>
    let longestText := row.cellTexts.foldl (fun longest cell =>
      let text := jsTrim cell
      if text.length > longest.length && !(isAmount text) && !(isDate text) &&
          text.length > 5 then text
      else longest) []
    if longestText ≠ [] then
      let parsed := parseDescriptionAndVendor longestText
      (parsed.description, parsed.vendor)
    else ([], [])

/-- Keyword-priority type classification over the resolved description
(src/js/utils.js:287). -/
def rbcType (description : Str) : Str :=
  if description ≠ [] then
    let desc := toLowerStr description
    if jsIncludes desc (lc "interac") then lc "Interac"
    else if jsIncludes desc (lc "contactless") then lc "Contactless"
    else if jsIncludes desc (lc "deposit") then lc "Deposit"
    else if jsIncludes desc (lc "withdrawal") then lc "Withdrawal"
    else if jsIncludes desc (lc "transfer") then lc "Transfer"
    else if jsIncludes desc (lc "payment") then lc "Payment"
    else []
  else []

/-- Amount resolution (src/js/utils.js:305): credit or debit column logic,
then the any-amount-cell fallback. -/
def rbcAmount (row : Row) : Str :=
  let amountA : Str :=
    if rbcAccountType row = lc "credit" then creditAmount row else debitAmount row
  if amountA = [] then firstAmountCell row.cellTexts else amountA

/-- Balance resolution (src/js/utils.js:354): balance column, else the last
amount-classified cell differing from the chosen amount. -/
def rbcBalance (row : Row) (amount : Str) : Str :=
  let balance1 : Str := match row.balanceText with
    | some b => if jsTrim b ≠ [] then jsTrim b else []
    | none => []
  if balance1 = [] then
    let amounts := row.cellTexts.filterMap (fun c =>
      let text := jsTrim c
      if isAmount text && text ≠ amount then some text else none)
    (amounts.getLast?).getD []
  else balance1

/-- `parseRBCTransactionRow` (src/js/utils.js:169), assembled from the stage
functions above in source order. -/
def parseRBCTransactionRow (row : Row) : Transaction :=
  let dv := rbcDescVendor row
  let amount := rbcAmount row
  { date := rbcDate row, description := dv.1, vendor := dv.2, amount := amount,
    type := rbcType dv.1, balance := rbcBalance row amount, reference := [],
    accountType := rbcAccountType row }

/-- `extractFromRBCTransactionRows` (src/js/transactionExtractor.js:539):
parse every row, keep the valid transactions (a row whose parse throws is
skipped; the embedded parse is total). -/
def extractFromRBCTransactionRows (transactionRows : List Row) : List Transaction :=
  (transactionRows.map parseRBCTransactionRow).filter isValidTransaction

example :
    (parseRBCTransactionRow
      { firstCellHeaders := some (lc "cc-date cc-desc"),
        dateCellText := some (lc "10/21/2025"),
        descDivTexts := some [lc "STORE XYZ"],
        ccWithdrawText := some (lc "50.00") }).amount = lc "-$50.00" := by
  decide

example :
    (parseRBCTransactionRow
      { firstCellHeaders := some (lc "cc-date cc-desc"),
        dateCellText := some (lc "10/21/2025"),
        descDivTexts := some [lc "PAYMENT - THANK YOU"],
        ccDepositText := some (lc "-$75.00") }).amount = lc "$75.00" := by
  decide

/-! ### src/js/utils.js: PDFProcessor -/

/-- `[+-]?`. -/
def reSignOpt : RE := reOpt (.cls (fun c => c = '+' ∨ c = '-'))

/-- `[+-]?\$\d+\.\d{2}`. -/
def reDollarAmt : RE :=
  reSeqL [reSignOpt, reChr '$', rePlus reDigit, reChr '.', reDigit, reDigit]

/-- `[+-]?\d+\.\d{2}`. -/
def reBareAmt : RE :=
  reSeqL [reSignOpt, rePlus reDigit, reChr '.', reDigit, reDigit]

/-- `\d{1,2}\/\d{1,2}\/\d{4}`. -/
def reSlashDate : RE :=
  reSeqL [reRep12 reDigit, reChr '/', reRep12 reDigit, reChr '/', reRepN reDigit 4]

/-- `((Month...)\s+\d{1,2},?\s+\d{4})` with the inner month-word group
numbered `gn`. -/
def reMonthDateG (gn : Nat) : RE :=
  reSeqL [.grp gn reMonthAlt, rePlus reWs, reRep12 reDigit, reOpt (reChr ','),
    rePlus reWs, reRepN reDigit 4]

/-- `(.+)`. -/
def reDotPlus : RE := .seq reDot (.star reDot false)

/-- `(.+?)`. -/
def reDotPlusLazy : RE := .seq reDot (.star reDot true)

/-- The six PDF line patterns of `PDFProcessor.parseTransactionLine`
(src/js/utils.js:666), with source group numbering. -/
def pdfPatterns : List RE :=
  [reSeqL [.grp 1 reSlashDate, rePlus reWs, .grp 2 reDollarAmt, rePlus reWs,
     .grp 3 reDotPlus],
   reSeqL [.grp 1 reDotPlusLazy, rePlus reWs, .grp 2 reSlashDate, rePlus reWs,
     .grp 3 reDollarAmt],
   reSeqL [.grp 1 reSlashDate, rePlus reWs, .grp 2 reDotPlusLazy, rePlus reWs,
     .grp 3 reBareAmt],
   reSeqL [.grp 1 (reMonthDateG 2), rePlus reWs, .grp 3 reDollarAmt, rePlus reWs,
     .grp 4 reDotPlus],
   reSeqL [.grp 1 reDotPlusLazy, rePlus reWs, .grp 2 (reMonthDateG 3), rePlus reWs,
     .grp 4 reDollarAmt],
   reSeqL [.grp 1 (reMonthDateG 2), rePlus reWs, .grp 3 reDotPlusLazy, rePlus reWs,
     .grp 4 reBareAmt]]

/-- Captures of the first pattern in the list that matches. -/
def firstSearchCaps (pats : List RE) (s : Str) : Option Caps :=
  match pats with
  | [] => none
  | p :: ps =>
    match reSearch p s with
    | some (_, _, caps, _) => some caps
    | none => firstSearchCaps ps s

/-- A positioned PDF text fragment (`item.str`, `item.transform[5]`);
vertical coordinates are modelled as integers (only subtraction, absolute
value and ordering are applied to them). -/
structure TextItem where
  str : Str
  y : Int

/-- The `textContent` of one PDF page. -/
structure TextContent where
  items : List TextItem

/-- A reconstructed PDF line. -/
structure PDFLine where
  text : Str
  y : Int

/-- Insert an item into the first line group whose representative coordinate
is within the tolerance of 2, else start a new group
(src/js/utils.js:640). -/
def addItemToLines (lines : List (Int × List TextItem)) (item : TextItem) :
    List (Int × List TextItem) :=
  match lines with
  | [] => [(item.y, [item])]
  | (y, its) :: rest =>
    if (y - item.y).natAbs ≤ 2 then (y, its ++ [item]) :: rest
    else (y, its) :: addItemToLines rest item

/-- Stable insertion into a sorted list (used to model the stable
`Array.prototype.sort`). -/
def stableInsert {α : Type} (le : α → α → Bool) (x : α) : List α → List α
  | [] => [x]
  | y :: ys => if le x y then x :: y :: ys else y :: stableInsert le x ys

/-- Stable insertion sort: `le a b` means `a` may stay before `b`. -/
def stableSort {α : Type} (le : α → α → Bool) : List α → List α
  | [] => []
  | x :: xs => stableInsert le x (stableSort le xs)

/-- `PDFProcessor.groupTextIntoLines` (src/js/utils.js:636): greedy
single-pass clustering by vertical coordinate, then a stable sort by
descending coordinate (the comparator `b.y - a.y`), then space-joining each
group's fragments. -/
def groupTextIntoLines (textItems : List TextItem) : List PDFLine :=
  let lines := textItems.foldl addItemToLines []
  let sorted := stableSort (fun a b => decide (b.1 ≤ a.1)) lines
  sorted.map (fun l => { text := joinSep [' '] (l.2.map TextItem.str), y := l.1 })

namespace PDFProcessor

/-- `PDFProcessor.parseTransactionLine` (src/js/utils.js:661): first matching
pattern wins; the record is built from capture groups 1, 2, 3 regardless of
the pattern's group count, exactly as the source's destructuring does. -/
def parseTransactionLine (line : PDFLine) : Option Transaction :=
  let text := jsTrim line.text
  if text = [] then none
  else
    match firstSearchCaps pdfPatterns text with
    | some caps =>
      match caps 1, caps 2, caps 3 with
      | some date, some amount, some description =>
        some { date := normalizeDate date, amount := normalizeAmount amount,
               description := jsTrim description, source := lc "PDF",
               page := some line.y }
      | _, _, _ => none
    | none => none

/-- `PDFProcessor.parsePDFPage` (src/js/utils.js:619): group the page's
items into lines and keep every line that parses (the page number is only
used for logging). -/
def parsePDFPage (textContent : TextContent) (pageNumber : Nat) : List Transaction :=
  let _ := pageNumber
  (groupTextIntoLines textContent.items).filterMap parseTransactionLine

end PDFProcessor

/-- The re-entrancy flag of a `PDFProcessor` instance. -/
structure PDFProcState where
  isProcessing : Bool
  deriving DecidableEq

/-- Result shape of a successful `downloadAndProcessPDF`. -/
structure PDFResult where
  success : Bool
  transactions : List Transaction
  filename : Str
  deriving DecidableEq

/-- `PDFProcessor.downloadAndProcessPDF` (src/js/utils.js:531) as a state
transition.  The download and extraction steps are oracles supplying the
outcome of the corresponding awaits; a busy processor throws before touching
any state, and the `finally` clause clears the flag on every other path. -/
def downloadAndProcessPDF (st : PDFProcState) (downloadResult : Except Str Str)
    (extractResult : Except Str (List Transaction)) (filename : Str) :
    Except Str PDFResult × PDFProcState :=
  if st.isProcessing then
    (Except.error (lc "PDF processing already in progress"), st)
  else
    match downloadResult with
    | .error e => (.error e, { isProcessing := false })
    | .ok f =>
      if f = [] then
        (.error (lc "Failed to download PDF file"), { isProcessing := false })
      else
        match extractResult with
        | .error e => (.error e, { isProcessing := false })
        | .ok transactions =>
          (.ok { success := true, transactions := transactions,
                 filename := filename }, { isProcessing := false })

/-! ### src/js/csvExporter.js and src/popup.js: CSV serialization -/

/-- The fixed column order of `convertToCSV` (src/js/csvExporter.js:10). -/
def orderedHeaders : List Str :=
  [lc "date", lc "accountType", lc "description", lc "vendor", lc "amount",
   lc "balance", lc "reference"]

/-- `transaction[header] || ''` for the column names the serializer reads. -/
def transactionField (t : Transaction) (h : Str) : Str :=
  if h = lc "date" then t.date
  else if h = lc "accountType" then t.accountType
  else if h = lc "description" then t.description
  else if h = lc "vendor" then t.vendor
  else if h = lc "amount" then t.amount
  else if h = lc "balance" then t.balance
  else if h = lc "reference" then t.reference
  else []

/-- The headers kept by `convertToCSV`: ordered columns with at least one
non-empty value (src/js/csvExporter.js:13). -/
def activeHeaders (transactions : List Transaction) : List Str :=
  orderedHeaders.filter (fun header =>
    transactions.any (fun t => transactionField t header ≠ []))

/-- ASCII upper-casing of one character. -/
def upperChar (c : Char) : Char :=
  if 'a' ≤ c ∧ c ≤ 'z' then Char.ofNat (c.toNat - 32) else c

/-- `h.charAt(0).toUpperCase() + h.slice(1)`. -/
def capitalizeFirst : Str → Str
  | [] => []
  | c :: cs => upperChar c :: cs

/-- The header-label switch of `convertToCSV` (src/js/csvExporter.js:18). -/
def headerLabel (h : Str) : Str :=
  if h = lc "date" then lc "Date"
  else if h = lc "accountType" then lc "Account Type"
  else if h = lc "description" then lc "Description"
  else if h = lc "vendor" then lc "Vendor/Payee"
  else if h = lc "amount" then lc "Amount"
  else if h = lc "balance" then lc "Balance"
  else if h = lc "reference" then lc "Reference"
  else capitalizeFirst h

/-- `value.replace(/"/g, '""')`. -/
def doubleQ (s : Str) : Str :=
  s.flatMap (fun c => if c = '"' then ['"', '"'] else [c])

/-- Wrap in quotes with embedded quotes doubled. -/
def quoteWrap (s : Str) : Str := '"' :: doubleQ s ++ ['"']

/-- Contains a comma, double quote, or newline. -/
def hasSpecial (v : Str) : Bool :=
  jsIncludes v (lc ",") || jsIncludes v (lc "\"") || jsIncludes v (lc "\n")

/-- One emitted cell of `convertToCSV` (src/js/csvExporter.js:33): amounts
and balances are comma-stripped and never wrapped, dates always wrapped,
everything else wrapped only when it contains a special character. -/
def csvFieldValue (header : Str) (t : Transaction) : Str :=
  let value := transactionField t header
  if header = lc "amount" ∨ header = lc "balance" then
    value.filter (fun c => c ≠ ',')
  else if header = lc "date" then quoteWrap value
  else if hasSpecial value then quoteWrap value
  else value

/-- `convertToCSV` (src/js/csvExporter.js:6). -/
def convertToCSV (transactions : List Transaction) : Str :=
  if transactions.length = 0 then []
  else
    let headers := activeHeaders transactions
    let csvHeaders := joinSep (lc ",") (headers.map headerLabel)
    let csvRows := transactions.map (fun t =>
      joinSep (lc ",") (headers.map (fun h => csvFieldValue h t)))
    joinSep (lc "\n") (csvHeaders :: csvRows)

/-- A JavaScript object as an insertion-ordered key/value list (the popup
serializer enumerates `Object.keys`). -/
abbrev Obj := List (Str × Str)

/-- `Object.keys`. -/
def objKeys (o : Obj) : List Str := o.map Prod.fst

/-- `t[header] || ''`. -/
def objGet (o : Obj) (k : Str) : Str :=
  ((o.find? (fun p => p.1 = k)).map Prod.snd).getD []

/-- `[...new Set(keys)]`: deduplicate preserving first occurrence. -/
def dedupKeys (l : List Str) : List Str :=
  l.foldl (fun acc k => if acc.any (fun x => x = k) then acc else acc ++ [k]) []

/-- The duplicate `convertToCSV` of the popup (src/popup.js:290): headers
are the union of record keys in insertion order, every column is kept, and
every field is quoted only when it contains a special character. -/
def popupConvertToCSV (transactions : List Obj) : Str :=
  if transactions.length = 0 then []
  else
    let headers := dedupKeys (transactions.flatMap objKeys)
    let csvHeaders := joinSep (lc ",") headers
    let csvRows := transactions.map (fun t =>
      joinSep (lc ",") (headers.map (fun h =>
        let value := objGet t h
        if hasSpecial value then quoteWrap value else value)))
    joinSep (lc "\n") (csvHeaders :: csvRows)

/-- The key list of a web-parsed record, in the insertion order of
`parseRBCTransactionRow`'s object literal. -/
def objOfTransaction (t : Transaction) : Obj :=
  [(lc "date", t.date), (lc "description", t.description), (lc "vendor", t.vendor),
   (lc "amount", t.amount), (lc "type", t.type), (lc "balance", t.balance),
   (lc "reference", t.reference), (lc "accountType", t.accountType)]

/-! Standard (RFC 4180) CSV re-splitting, the referee for the round-trip
property the specification states. -/

/-- Read a quoted field body after its opening quote; `""` is an escaped
quote, a lone quote closes the field.  Structural fuel (at least the input
length) keeps the recursion kernel-reducible. -/
def stdQuotedAux : Nat → Str → (Str × Str)
  | _, [] => ([], [])
  | 0, s => ([], s)
  | _ + 1, [c] => if c = '"' then ([], []) else ([c], [])
  | f + 1, c :: c2 :: r =>
    if c = '"' then
      if c2 = '"' then let p := stdQuotedAux f r; ('"' :: p.1, p.2)
      else ([], c2 :: r)
    else
      let p := stdQuotedAux f (c2 :: r); (c :: p.1, p.2)

/-- Read a quoted field body with sufficient fuel. -/
def stdQuoted (s : Str) : Str × Str := stdQuotedAux s.length s

/-- Read one CSV field: quoted or up to the next comma. -/
def stdTakeField : Str → (Str × Str)
  | '"' :: r => stdQuoted r
  | s => (s.takeWhile (fun c => c ≠ ','), s.dropWhile (fun c => c ≠ ','))

/-- Split one CSV record line into its fields by the standard quoting rule. -/
def stdSplitFieldsAux : Nat → Str → List Str
  | 0, _ => []
  | f + 1, s =>
    let p := stdTakeField s
    match p.2 with
    | ',' :: more => p.1 :: stdSplitFieldsAux f more
    | _ => [p.1]

/-- Split a CSV record line. -/
def stdSplitFields (s : Str) : List Str := stdSplitFieldsAux (s.length + 1) s

example :
    stdSplitFields (lc "\"10/21/2025\",a,\"Smith, John\",$5.00") =
      [lc "10/21/2025", lc "a", lc "Smith, John", lc "$5.00"] := by decide

/-! ### src/js/transactionExtractor.js: the show-more load loops -/

/-- Environment of the load loop: whether a visible show-more control exists
before the `k`-th activation, and the extractable-unit count observed at the
`j`-th poll of activation `k` (`j = 0` is the pre-click read). -/
structure LoadEnv where
  hasButton : Nat → Bool
  cnt : Nat → Nat → Nat

/-- The inner poll of `clickAllShowMoreButtonsWithProgress`
(src/js/transactionExtractor.js:225): sample every 500 ms for up to 15 s,
stopping early when the count exceeds the pre-click count. -/
def pollLoopGo (before : Nat) (sample : Nat → Nat) : Nat → Nat → Nat
  | j, rem =>
    if sample j > before then sample j
    else
      match rem with
      | 0 => sample j
      | rem' + 1 => pollLoopGo before sample (j + 1) rem'

/-- Run the poll over ticks 1..30 (the `rem` argument counts the ticks left
after the current one, so the loop guard `waitTime < 15000` becomes
`rem > 0`). -/
def pollLoop (before : Nat) (sample : Nat → Nat) : Nat := pollLoopGo before sample 1 29

/-- The outer loop of `clickAllShowMoreButtonsWithProgress`
(src/js/transactionExtractor.js:195), returning the number of clicks
performed: stop on a missing button, or right after a click whose poll ends
at the pre-click count; hard ceiling of 100 attempts. -/
def loopWithProgress (env : LoadEnv) : Nat → Nat → Nat
  | clicks, 0 => clicks
  | clicks, rem + 1 =>
    if env.hasButton clicks then
      if pollLoop (env.cnt clicks 0) (env.cnt clicks) = env.cnt clicks 0 then
        clicks + 1
      else loopWithProgress env (clicks + 1) rem
    else clicks

/-- `clickAllShowMoreButtonsWithProgress` (src/js/transactionExtractor.js:180);
the attempt budget of 100 is the loop guard `clickCount < maxAttempts`. -/
def clickAllShowMoreButtonsWithProgress (env : LoadEnv) : Nat := loopWithProgress env 0 100

/-- The outer loop of the plain `clickAllShowMoreButtons`
(src/js/transactionExtractor.js:382): one fixed 2 s wait, then a single
sample compared for equality. -/
def loopPlain (env : LoadEnv) : Nat → Nat → Nat
  | clicks, 0 => clicks
  | clicks, rem + 1 =>
    if env.hasButton clicks then
      if env.cnt clicks 1 = env.cnt clicks 0 then clicks + 1
      else loopPlain env (clicks + 1) rem
    else clicks

/-- `clickAllShowMoreButtons` (src/js/transactionExtractor.js:377). -/
def clickAllShowMoreButtons (env : LoadEnv) : Nat := loopPlain env 0 100

/-! ### Matcher soundness -/

/-- A `take` of at least one element of a non-empty list is non-empty. -/
theorem take_ne_nil_of {α : Type} {l : List α} {k : Nat} (hk : k ≠ 0) (hl : l ≠ []) :
    l.take k ≠ [] := by
  cases l with
  | nil => exact absurd rfl hl
  | cons c cs =>
    cases k with
    | zero => exact absurd rfl hk
    | succ k => simp

/-- Every state the matcher can reach consumes at least `reMinLen r`. -/
theorem reM_consume (fuel : Nat) : ∀ (r : RE) (st st' : MSt),
    st' ∈ reM fuel r st → st'.rest.length + reMinLen r ≤ st.rest.length := by
  induction fuel with
  | zero => intro r st st' h; simp [reM] at h
  | succ f ih =>
    intro r st st' h
    cases r with
    | eps =>
      simp only [reM, List.mem_singleton] at h
      subst h; simp [reMinLen]
    | cls p =>
      obtain ⟨sr, sp, sc⟩ := st
      simp only [reM] at h
      cases sr with
      | nil => simp at h
      | cons c cs =>
        by_cases hp : p c = true
        · simp only [hp, if_true, List.mem_singleton] at h
          subst h
          simp [reMinLen]
        · simp [hp] at h
    | seq a b =>
      simp only [reM, List.mem_flatMap] at h
      obtain ⟨mid, hmid, hst'⟩ := h
      have h1 := ih a st mid hmid
      have h2 := ih b mid st' hst'
      simp only [reMinLen]; omega
    | alt a b =>
      simp only [reM, List.mem_append] at h
      simp only [reMinLen]
      rcases h with h | h
      · have := ih a st st' h; omega
      · have := ih b st st' h; omega
    | star a lz =>
      simp only [reM] at h
      have hmem : st' = st ∨
          st' ∈ ((reM f a st).filter
            (fun st'' => st''.rest.length < st.rest.length)).flatMap
              (reM f (.star a lz)) := by
        by_cases hlz : lz = true
        · rw [if_pos hlz] at h
          rcases List.mem_append.mp h with h1 | h1
          · exact Or.inl (List.mem_singleton.mp h1)
          · exact Or.inr h1
        · rw [if_neg hlz] at h
          rcases List.mem_append.mp h with h1 | h1
          · exact Or.inr h1
          · exact Or.inl (List.mem_singleton.mp h1)
      rcases hmem with rfl | h1
      · simp [reMinLen]
      · simp only [List.mem_flatMap, List.mem_filter] at h1
        obtain ⟨mid, ⟨_, hlt⟩, hst'⟩ := h1
        have hlt' : mid.rest.length < st.rest.length := of_decide_eq_true hlt
        have h2 := ih (.star a lz) mid st' hst'
        have h3 : reMinLen (RE.star a lz) = 0 := rfl
        rw [h3] at h2 ⊢
        omega
    | grp n a =>
      simp only [reM, List.mem_map] at h
      obtain ⟨mid, hmid, hst'⟩ := h
      have h1 := ih a st mid hmid
      have h2 : st'.rest = mid.rest := by rw [← hst']
      have h3 : reMinLen (RE.grp n a) = reMinLen a := rfl
      rw [h3, h2]
      omega
    | bnd =>
      simp only [reM] at h
      by_cases hb : atBoundary st.prv st.rest = true
      · rw [if_pos hb] at h
        simp only [List.mem_singleton] at h
        subst h; simp [reMinLen]
      · rw [if_neg hb] at h; simp at h

/-- A capture store with no empty captures. -/
def capsOK (caps : Caps) : Prop := ∀ n s, caps n = some s → s ≠ []

/-- Every capturing group's body consumes at least one character. -/
def goodRE : RE → Bool
  | .eps => true
  | .cls _ => true
  | .seq a b => goodRE a && goodRE b
  | .alt a b => goodRE a && goodRE b
  | .star a _ => goodRE a
  | .grp _ a => goodRE a && decide (1 ≤ reMinLen a)
  | .bnd => true

/-- Matching a `goodRE` regex only records non-empty captures. -/
theorem reM_capsOK (fuel : Nat) : ∀ (r : RE) (st st' : MSt), goodRE r = true →
    capsOK st.caps → st' ∈ reM fuel r st → capsOK st'.caps := by
  induction fuel with
  | zero => intro r st st' _ _ h; simp [reM] at h
  | succ f ih =>
    intro r st st' hg hc h
    cases r with
    | eps =>
      simp only [reM, List.mem_singleton] at h
      subst h; exact hc
    | cls p =>
      obtain ⟨sr, sp, sc⟩ := st
      simp only [reM] at h
      cases sr with
      | nil => simp at h
      | cons c cs =>
        by_cases hp : p c = true
        · simp only [hp, if_true, List.mem_singleton] at h
          subst h; exact hc
        · simp [hp] at h
    | seq a b =>
      simp only [goodRE, Bool.and_eq_true] at hg
      simp only [reM, List.mem_flatMap] at h
      obtain ⟨mid, hmid, hst'⟩ := h
      exact ih b mid st' hg.2 (ih a st mid hg.1 hc hmid) hst'
    | alt a b =>
      simp only [goodRE, Bool.and_eq_true] at hg
      simp only [reM, List.mem_append] at h
      rcases h with h | h
      · exact ih a st st' hg.1 hc h
      · exact ih b st st' hg.2 hc h
    | star a lz =>
      have hga : goodRE a = true := by simpa [goodRE] using hg
      simp only [reM] at h
      have hmem : st' = st ∨
          st' ∈ ((reM f a st).filter
            (fun st'' => st''.rest.length < st.rest.length)).flatMap
              (reM f (.star a lz)) := by
        by_cases hlz : lz = true
        · rw [if_pos hlz] at h
          rcases List.mem_append.mp h with h1 | h1
          · exact Or.inl (List.mem_singleton.mp h1)
          · exact Or.inr h1
        · rw [if_neg hlz] at h
          rcases List.mem_append.mp h with h1 | h1
          · exact Or.inr h1
          · exact Or.inl (List.mem_singleton.mp h1)
      rcases hmem with rfl | h1
      · exact hc
      · simp only [List.mem_flatMap, List.mem_filter] at h1
        obtain ⟨mid, ⟨hmida, _⟩, hst'⟩ := h1
        exact ih (.star a lz) mid st' hg (ih a st mid hga hc hmida) hst'
    | grp n a =>
      have hg' : goodRE a = true ∧ 1 ≤ reMinLen a := by
        simpa [goodRE, Bool.and_eq_true, decide_eq_true_eq] using hg
      simp only [reM, List.mem_map] at h
      obtain ⟨mid, hmid, hst'⟩ := h
      have hcmid := ih a st mid hg'.1 hc hmid
      have hcons := reM_consume f a st mid hmid
      intro m sv hsv
      rw [← hst'] at hsv
      simp only [updCaps] at hsv
      by_cases hm : m = n
      · rw [if_pos hm] at hsv
        have hsv' : sv = st.rest.take (st.rest.length - mid.rest.length) :=
          (Option.some.inj hsv).symm
        have hk : st.rest.length - mid.rest.length ≠ 0 := by
          have := hg'.2; omega
        have hl : st.rest ≠ [] := by
          intro hn
          rw [hn] at hcons
          simp at hcons
          omega
        rw [hsv']
        exact take_ne_nil_of hk hl
      · rw [if_neg hm] at hsv
        exact hcmid m sv hsv
    | bnd =>
      simp only [reM] at h
      by_cases hb : atBoundary st.prv st.rest = true
      · rw [if_pos hb] at h
        simp only [List.mem_singleton] at h
        subst h; exact hc
      · rw [if_neg hb] at h; simp at h

/-- The head of a list is a member. -/
theorem mem_of_head?_eq {α : Type} {l : List α} {a : α} (h : l.head? = some a) :
    a ∈ l := by
  cases l with
  | nil => simp at h
  | cons b bs =>
    simp only [List.head?_cons, Option.some.injEq] at h
    subst h; exact List.mem_cons_self b bs

/-- The empty capture store is trivially well-formed. -/
theorem capsOK_empty : capsOK (fun _ => none) := by
  intro n s h; simp at h

/-- Captures of an anchored match of a `goodRE` pattern are non-empty. -/
theorem reFullMatch_capsOK {r : RE} {s : Str} {caps : Caps}
    (hg : goodRE r = true) (h : reFullMatch r s = some caps) : capsOK caps := by
  unfold reFullMatch at h
  obtain ⟨st, hst, hcast⟩ := Option.map_eq_some'.mp h
  have hmem := List.mem_filter.mp (mem_of_head?_eq hst)
  have := reM_capsOK (reFuel r s) r ⟨s, none, fun _ => none⟩ st hg capsOK_empty hmem.1
  rw [← hcast]
  exact this

/-- Captures of an unanchored search of a `goodRE` pattern are non-empty. -/
theorem reSearchAux_capsOK {r : RE} (hg : goodRE r = true) :
    ∀ (s : Str) (prv : Option Char) (pre : Str) (res : Str × Str × Caps × Str),
      reSearchAux r s prv pre = some res → capsOK res.2.2.1 := by
  intro s
  induction s with
  | nil =>
    intro prv pre res h
    rw [reSearchAux] at h
    cases hh : (reM (reFuel r []) r ⟨[], prv, fun _ => none⟩).head? with
    | some st =>
      rw [hh] at h
      have hmem := mem_of_head?_eq hh
      have := reM_capsOK (reFuel r []) r ⟨[], prv, fun _ => none⟩ st hg capsOK_empty hmem
      simp only [Option.some.injEq] at h
      rw [← h]
      exact this
    | none => rw [hh] at h; simp at h
  | cons c cs ih =>
    intro prv pre res h
    rw [reSearchAux] at h
    cases hh : (reM (reFuel r (c :: cs)) r ⟨c :: cs, prv, fun _ => none⟩).head? with
    | some st =>
      rw [hh] at h
      have hmem := mem_of_head?_eq hh
      have := reM_capsOK (reFuel r (c :: cs)) r ⟨c :: cs, prv, fun _ => none⟩ st hg
        capsOK_empty hmem
      simp only [Option.some.injEq] at h
      rw [← h]
      exact this
    | none =>
      rw [hh] at h
      exact ih (some c) (c :: pre) res h

/-- Captures of `reSearch` on a `goodRE` pattern are non-empty. -/
theorem reSearch_capsOK {r : RE} {s : Str} {res : Str × Str × Caps × Str}
    (hg : goodRE r = true) (h : reSearch r s = some res) : capsOK res.2.2.1 :=
  reSearchAux_capsOK hg s none [] res h

/-- Captures of the first matching pattern are non-empty when every pattern
in the list is `goodRE`. -/
theorem firstSearchCaps_capsOK :
    ∀ (pats : List RE) (s : Str) (caps : Caps), pats.all goodRE = true →
      firstSearchCaps pats s = some caps → capsOK caps := by
  intro pats
  induction pats with
  | nil => intro s caps _ h; simp [firstSearchCaps] at h
  | cons p ps ih =>
    intro s caps hall h
    simp only [List.all_cons, Bool.and_eq_true] at hall
    rw [firstSearchCaps] at h
    cases hh : reSearch p s with
    | some res =>
      rw [hh] at h
      obtain ⟨pre, m, caps', post⟩ := res
      simp only [Option.some.injEq] at h
      rw [← h]
      exact reSearch_capsOK hall.1 hh
    | none =>
      rw [hh] at h
      exact ih s caps hall.2 h

/-- `toFixed(2)` output is never empty. -/
theorem toFixed2_ne_nil (n : JSNum) : toFixed2 n ≠ [] := by
  cases n with
  | posInf => simp [toFixed2, lc]
  | negInf => simp [toFixed2, lc]
  | num d =>
    simp only [toFixed2]
    intro h
    rcases List.append_eq_nil.mp h with ⟨_, h2⟩
    exact List.cons_ne_nil _ _ h2

/-- `normalizeAmount` preserves non-emptiness. -/
theorem normalizeAmount_ne_nil {s : Str} (h : s ≠ []) : normalizeAmount s ≠ [] := by
  unfold normalizeAmount
  dsimp only
  cases hres : jsParseFloat (List.filter (fun c => decide ¬(c = ',' ∨ c = '$')) s) with
  | none => exact h
  | some num =>
    split
    · exact h
    · split <;> exact toFixed2_ne_nil _

/-- All six PDF line patterns have non-empty-capture groups. -/
theorem pdfPatterns_good : pdfPatterns.all goodRE = true := by decide

/-- Every record `PDFProcessor.parseTransactionLine` produces has a
non-empty amount. -/
theorem parseTransactionLine_amount {line : PDFLine} {t : Transaction}
    (h : PDFProcessor.parseTransactionLine line = some t) : t.amount ≠ [] := by
  unfold PDFProcessor.parseTransactionLine at h
  by_cases ht : jsTrim line.text = []
  · rw [ht] at h; simp at h
  · rw [if_neg ht] at h
    cases hc : firstSearchCaps pdfPatterns (jsTrim line.text) with
    | none => simp only [hc] at h; exact Option.noConfusion h
    | some caps =>
      simp only [hc] at h
      have hcaps := firstSearchCaps_capsOK pdfPatterns (jsTrim line.text) caps
        pdfPatterns_good hc
      cases h1 : caps 1 with
      | none => rw [h1] at h; simp at h
      | some date =>
        cases h2 : caps 2 with
        | none => rw [h1, h2] at h; simp at h
        | some amount =>
          cases h3 : caps 3 with
          | none => rw [h1, h2, h3] at h; simp at h
          | some description =>
            rw [h1, h2, h3] at h
            simp only [Option.some.injEq] at h
            have ht' : t.amount = normalizeAmount amount := by rw [← h]
            rw [ht']
            exact normalizeAmount_ne_nil (hcaps 2 amount h2)

/-! ### Claim theorems -/

/-- C6: `isValidTransaction` returns true if and only if the trimmed
description exceeds 2 characters or the trimmed amount is non-empty; the
date never affects validity; and the boundary cases behave as specified
(empty description with an amount is valid, description "ab" alone is
invalid, "abc" alone is valid). -/
theorem c6_validator_boundary :
    (∀ t : Transaction,
      isValidTransaction t = true ↔
        ((jsTrim t.description).length > 2 ∨ jsTrim t.amount ≠ [])) ∧
    (∀ (t : Transaction) (d : Str),
      isValidTransaction { t with date := d } = isValidTransaction t) ∧
    isValidTransaction { description := [], amount := lc "$10.00" } = true ∧
    isValidTransaction { description := lc "ab", amount := [] } = false ∧
    isValidTransaction { description := lc "abc", amount := [] } = true := by
  refine ⟨?_, fun t d => rfl, by decide, by decide, by decide⟩
  intro t
  simp only [isValidTransaction, Bool.or_eq_true, decide_eq_true_eq]
  constructor
  · rintro (⟨-, h2⟩ | ⟨-, h2⟩)
    · exact Or.inl h2
    · refine Or.inr ?_
      intro hn
      rw [hn] at h2
      simp at h2
  · rintro (h2 | h2)
    · refine Or.inl ⟨?_, h2⟩
      intro hn
      rw [hn] at h2
      simp [jsTrim] at h2
    · refine Or.inr ⟨?_, ?_⟩
      · intro hn
        rw [hn] at h2
        exact h2 rfl
      · exact List.length_pos.mpr h2

/-- C3: every record present in the set returned by the web row path
(`extractFromRBCTransactionRows`) or the PDF line path
(`PDFProcessor.parsePDFPage`) has a trimmed description longer than 2
characters or a non-empty amount; a candidate failing both never appears. -/
theorem c3_retained_records_valid :
    (∀ (rows : List Row) (t : Transaction),
      t ∈ extractFromRBCTransactionRows rows →
      (jsTrim t.description).length > 2 ∨ t.amount ≠ []) ∧
    (∀ (tc : TextContent) (pg : Nat) (t : Transaction),
      t ∈ PDFProcessor.parsePDFPage tc pg →
      (jsTrim t.description).length > 2 ∨ t.amount ≠ []) := by
  constructor
  · intro rows t ht
    have hv := (List.mem_filter.mp ht).2
    simp only [isValidTransaction, Bool.or_eq_true, decide_eq_true_eq] at hv
    rcases hv with ⟨-, h2⟩ | ⟨h1, -⟩
    · exact Or.inl h2
    · exact Or.inr h1
  · intro tc pg t ht
    simp only [PDFProcessor.parsePDFPage, List.mem_filterMap] at ht
    obtain ⟨line, -, hline⟩ := ht
    exact Or.inr (parseTransactionLine_amount hline)

/-- A concrete debit row for exercising the web extraction path. -/
def c3WebRow : Row :=
  { firstCellHeaders := some (lc "pda-date pda-desc"),
    dateCellText := some (lc "10/21/2025"),
    descDivTexts := some [lc "Interac e-Transfer", lc "JANE"],
    dbWithdrawText := some (lc "$5.00") }

/-- A concrete one-line PDF page. -/
def c3PdfPage : TextContent := ⟨[⟨lc "1/1/2025 $1.00 ab", 0⟩]⟩

/-- The record the PDF path extracts from `c3PdfPage`. -/
def c3PdfRecord : Transaction :=
  { date := lc "01/01/2025", description := lc "ab", amount := lc "1.00",
    source := lc "PDF", page := some 0 }

theorem c3_retained_records_valid_witness :
    ((jsTrim (parseRBCTransactionRow c3WebRow).description).length > 2 ∨
      (parseRBCTransactionRow c3WebRow).amount ≠ []) ∧
    ((jsTrim c3PdfRecord.description).length > 2 ∨ c3PdfRecord.amount ≠ []) :=
  ⟨c3_retained_records_valid.1 [c3WebRow] (parseRBCTransactionRow c3WebRow)
      (by decide),
   c3_retained_records_valid.2 c3PdfPage 1 c3PdfRecord (by decide)⟩

/-- C8: a `downloadAndProcessPDF` request issued while the processor is busy
fails fast with the distinct explicit busy error and leaves the state (and
hence the in-flight request) untouched; any request started on an idle
processor leaves the busy flag cleared whether it succeeds or fails; and the
busy error is distinct from the other failure message the method produces
itself. -/
theorem c8_reentrancy_guard :
    ∀ (st : PDFProcState) (dl : Except Str Str)
      (ex : Except Str (List Transaction)) (fn : Str),
      (st.isProcessing = true →
        downloadAndProcessPDF st dl ex fn =
          (Except.error (lc "PDF processing already in progress"), st)) ∧
      (st.isProcessing = false →
        (downloadAndProcessPDF st dl ex fn).2.isProcessing = false) ∧
      lc "PDF processing already in progress" ≠ lc "Failed to download PDF file" := by
  intro st dl ex fn
  refine ⟨?_, ?_, by decide⟩
  · intro hb
    unfold downloadAndProcessPDF
    rw [if_pos hb]
  · intro hb
    unfold downloadAndProcessPDF
    rw [if_neg (by rw [hb]; exact Bool.false_ne_true)]
    cases dl with
    | error e => rfl
    | ok f =>
      dsimp only
      by_cases hf : f = []
      · rw [if_pos hf]
      · rw [if_neg hf]
        cases ex with
        | error e => rfl
        | ok ts => rfl

theorem c8_reentrancy_guard_witness :
    downloadAndProcessPDF ⟨true⟩ (Except.ok (lc "blob:url")) (Except.ok [])
        (lc "rbc_statement.pdf") =
      (Except.error (lc "PDF processing already in progress"), ⟨true⟩) ∧
    (downloadAndProcessPDF ⟨false⟩ (Except.error (lc "Failed to download PDF: x"))
        (Except.ok []) (lc "rbc_statement.pdf")).2.isProcessing = false :=
  ⟨(c8_reentrancy_guard ⟨true⟩ (Except.ok (lc "blob:url")) (Except.ok [])
      (lc "rbc_statement.pdf")).1 rfl,
   (c8_reentrancy_guard ⟨false⟩ (Except.error (lc "Failed to download PDF: x"))
      (Except.ok []) (lc "rbc_statement.pdf")).2.1 rfl⟩

/-! C7 support: poll and loop behaviour. -/

/-- The poll returns the pre-click count when every sample equals it. -/
theorem pollLoopGo_static (before : Nat) (sample : Nat → Nat) :
    ∀ (rem j : Nat), (∀ i, j ≤ i → i ≤ j + rem → sample i = before) →
      pollLoopGo before sample j rem = before := by
  intro rem
  induction rem with
  | zero =>
    intro j hs
    have h0 := hs j le_rfl (by omega)
    rw [pollLoopGo, if_neg (by omega)]
    exact h0
  | succ r ih =>
    intro j hs
    have h0 := hs j le_rfl (by omega)
    rw [pollLoopGo, if_neg (by omega)]
    exact ih (j + 1) (fun i h1 h2 => hs i (by omega) (by omega))

/-- The poll exceeds the pre-click count when some sample in its window
does. -/
theorem pollLoopGo_growth (before : Nat) (sample : Nat → Nat) :
    ∀ (rem j : Nat), (∃ i, j ≤ i ∧ i ≤ j + rem ∧ sample i > before) →
      pollLoopGo before sample j rem > before := by
  intro rem
  induction rem with
  | zero =>
    intro j hs
    obtain ⟨i, h1, h2, h3⟩ := hs
    have hij : i = j := by omega
    subst hij
    rw [pollLoopGo, if_pos h3]
    exact h3
  | succ r ih =>
    intro j hs
    rw [pollLoopGo]
    by_cases hj : sample j > before
    · rw [if_pos hj]; exact hj
    · rw [if_neg hj]
      obtain ⟨i, h1, h2, h3⟩ := hs
      have hij : j + 1 ≤ i := by
        rcases Nat.eq_or_lt_of_le h1 with rfl | h
        · exact absurd h3 hj
        · omega
      exact ih (j + 1) ⟨i, hij, by omega, h3⟩

/-- The loop never exceeds its fuel. -/
theorem loopWithProgress_le (env : LoadEnv) :
    ∀ (rem clicks : Nat), loopWithProgress env clicks rem ≤ clicks + rem := by
  intro rem
  induction rem with
  | zero => intro clicks; rw [loopWithProgress]; omega
  | succ r ih =>
    intro clicks
    rw [loopWithProgress]
    by_cases hb : env.hasButton clicks = true
    · rw [if_pos hb]
      split
      · omega
      · have := ih (clicks + 1); omega
    · rw [if_neg hb]; omega

/-- The plain loop never exceeds its fuel. -/
theorem loopPlain_le (env : LoadEnv) :
    ∀ (rem clicks : Nat), loopPlain env clicks rem ≤ clicks + rem := by
  intro rem
  induction rem with
  | zero => intro clicks; rw [loopPlain]; omega
  | succ r ih =>
    intro clicks
    rw [loopPlain]
    by_cases hb : env.hasButton clicks = true
    · rw [if_pos hb]
      split
      · omega
      · have := ih (clicks + 1); omega
    · rw [if_neg hb]; omega

/-- The progress loop performs exactly `k + 1` clicks when the button stays
available, activations before `k` grow the count within the poll window, and
activation `k`'s samples all equal its pre-click count. -/
theorem loopWithProgress_stops (env : LoadEnv) (k : Nat) (hk : k < 100)
    (hbtn : ∀ i, i ≤ k → env.hasButton i = true)
    (hgrow : ∀ i, i < k → ∃ j, 1 ≤ j ∧ j ≤ 30 ∧ env.cnt i j > env.cnt i 0)
    (hstop : ∀ j, 1 ≤ j → j ≤ 30 → env.cnt k j = env.cnt k 0) :
    ∀ (d clicks : Nat), k - clicks = d → clicks ≤ k →
      loopWithProgress env clicks (100 - clicks) = k + 1 := by
  intro d
  induction d with
  | zero =>
    intro clicks hd hle
    have hck : clicks = k := by omega
    subst hck
    obtain ⟨rem, hrem⟩ : ∃ rem, 100 - clicks = rem + 1 := ⟨99 - clicks, by omega⟩
    rw [hrem, loopWithProgress, if_pos (hbtn clicks le_rfl)]
    have hpoll : pollLoop (env.cnt clicks 0) (env.cnt clicks) = env.cnt clicks 0 :=
      pollLoopGo_static _ _ 29 1 (fun i h1 h2 => hstop i h1 (by omega))
    rw [if_pos hpoll]
  | succ d ih =>
    intro clicks hd hle
    have hck : clicks < k := by omega
    obtain ⟨rem, hrem⟩ : ∃ rem, 100 - clicks = rem + 1 := ⟨99 - clicks, by omega⟩
    rw [hrem, loopWithProgress, if_pos (hbtn clicks (by omega))]
    have hpoll : pollLoop (env.cnt clicks 0) (env.cnt clicks) > env.cnt clicks 0 := by
      obtain ⟨j, h1, h2, h3⟩ := hgrow clicks hck
      exact pollLoopGo_growth _ _ 29 1 ⟨j, h1, by omega, h3⟩
    rw [if_neg (by omega)]
    have hrem' : rem = 100 - (clicks + 1) := by omega
    rw [hrem']
    exact ih (clicks + 1) (by omega) (by omega)

/-- The plain loop performs exactly `k + 1` clicks when the button stays
available, the single post-wait sample changes the count before `k`, and
equals it at `k`. -/
theorem loopPlain_stops (env : LoadEnv) (k : Nat) (hk : k < 100)
    (hbtn : ∀ i, i ≤ k → env.hasButton i = true)
    (hgrow : ∀ i, i < k → env.cnt i 1 ≠ env.cnt i 0)
    (hstop : env.cnt k 1 = env.cnt k 0) :
    ∀ (d clicks : Nat), k - clicks = d → clicks ≤ k →
      loopPlain env clicks (100 - clicks) = k + 1 := by
  intro d
  induction d with
  | zero =>
    intro clicks hd hle
    have hck : clicks = k := by omega
    subst hck
    obtain ⟨rem, hrem⟩ : ∃ rem, 100 - clicks = rem + 1 := ⟨99 - clicks, by omega⟩
    rw [hrem, loopPlain, if_pos (hbtn clicks le_rfl), if_pos hstop]
  | succ d ih =>
    intro clicks hd hle
    have hck : clicks < k := by omega
    obtain ⟨rem, hrem⟩ : ∃ rem, 100 - clicks = rem + 1 := ⟨99 - clicks, by omega⟩
    rw [hrem, loopPlain, if_pos (hbtn clicks (by omega)),
      if_neg (hgrow clicks hck)]
    have hrem' : rem = 100 - (clicks + 1) := by omega
    rw [hrem']
    exact ih (clicks + 1) (by omega) (by omega)

/-- C7: both show-more loops perform at most 100 trigger activations; the
progress loop stops right after the first activation whose 15-second poll
window shows no growth over a never-decreasing count (performing exactly
`k + 1` activations when activations `0..k-1` grow and activation `k` does
not), and the plain loop does the same with its single post-wait sample. -/
theorem c7_load_loop_termination :
    (∀ env : LoadEnv, clickAllShowMoreButtonsWithProgress env ≤ 100) ∧
    (∀ env : LoadEnv, clickAllShowMoreButtons env ≤ 100) ∧
    (∀ (env : LoadEnv) (k : Nat), k < 100 →
      (∀ i, i ≤ k → env.hasButton i = true) →
      (∀ i, i < k → ∃ j, 1 ≤ j ∧ j ≤ 30 ∧ env.cnt i j > env.cnt i 0) →
      (∀ j, 1 ≤ j → j ≤ 30 → env.cnt k j ≤ env.cnt k 0) →
      (∀ j, 1 ≤ j → j ≤ 30 → env.cnt k 0 ≤ env.cnt k j) →
      clickAllShowMoreButtonsWithProgress env = k + 1) ∧
    (∀ (env : LoadEnv) (k : Nat), k < 100 →
      (∀ i, i ≤ k → env.hasButton i = true) →
      (∀ i, i < k → env.cnt i 1 ≠ env.cnt i 0) →
      env.cnt k 1 = env.cnt k 0 →
      clickAllShowMoreButtons env = k + 1) := by
  refine ⟨fun env => ?_, fun env => ?_, ?_, ?_⟩
  · have := loopWithProgress_le env 100 0
    simpa [clickAllShowMoreButtonsWithProgress] using this
  · have := loopPlain_le env 100 0
    simpa [clickAllShowMoreButtons] using this
  · intro env k hk hbtn hgrow hub hlb
    have hstop : ∀ j, 1 ≤ j → j ≤ 30 → env.cnt k j = env.cnt k 0 :=
      fun j h1 h2 => Nat.le_antisymm (hub j h1 h2) (hlb j h1 h2)
    exact loopWithProgress_stops env k hk hbtn hgrow hstop k 0 (by omega) (by omega)
  · intro env k hk hbtn hgrow hstop
    exact loopPlain_stops env k hk hbtn hgrow hstop k 0 (by omega) (by omega)

/-- A simulated incremental source: the first two activations grow the
count, the third does not. -/
def c7Env : LoadEnv :=
  { hasButton := fun _ => true,
    cnt := fun k j => if j = 0 then k else if k < 2 then k + 1 else k }

theorem c7_load_loop_termination_witness :
    clickAllShowMoreButtonsWithProgress c7Env = 3 ∧
    clickAllShowMoreButtons c7Env = 3 :=
  ⟨c7_load_loop_termination.2.2.1 c7Env 2 (by omega) (fun i _ => rfl)
      (fun i hi => ⟨1, le_rfl, by omega, by interval_cases i <;> decide⟩)
      (fun j h1 _ => by
        have hj : j ≠ 0 := by omega
        simp [c7Env, hj])
      (fun j h1 _ => by
        have hj : j ≠ 0 := by omega
        simp [c7Env, hj]),
   c7_load_loop_termination.2.2.2 c7Env 2 (by omega) (fun i _ => rfl)
      (fun i hi => by interval_cases i <;> decide)
      (by decide)⟩

/-! C5 support: the standard splitter recovers a quote-wrapped field. -/

/-- Every `l ++ [x]` is a cons. -/
theorem append_singleton_cons {α : Type} (l : List α) (x : α) :
    ∃ c2 r, l ++ [x] = c2 :: r := by
  cases l with
  | nil => exact ⟨x, [], rfl⟩
  | cons a as => exact ⟨a, as ++ [x], rfl⟩

/-- Parsing a doubled-quote encoding up to its closing quote recovers the
original text. -/
theorem stdQuotedAux_roundtrip :
    ∀ (v : Str) (f : Nat), (doubleQ v).length < f →
      stdQuotedAux f (doubleQ v ++ ['"']) = (v, []) := by
  intro v
  induction v with
  | nil =>
    intro f hf
    obtain ⟨f', rfl⟩ : ∃ f', f = f' + 1 := ⟨f - 1, by simp [doubleQ] at hf; omega⟩
    simp [doubleQ, stdQuotedAux]
  | cons c cs ih =>
    intro f hf
    by_cases hc : c = '"'
    · subst hc
      have hd : doubleQ ('"' :: cs) = '"' :: '"' :: doubleQ cs := by
        simp [doubleQ]
      rw [hd] at hf ⊢
      obtain ⟨f', rfl⟩ : ∃ f', f = f' + 1 := ⟨f - 1, by simp at hf; omega⟩
      rw [List.cons_append, List.cons_append, stdQuotedAux, if_pos rfl, if_pos rfl]
      have := ih f' (by simp at hf; omega)
      simp only [this]
    · have hd : doubleQ (c :: cs) = c :: doubleQ cs := by
        simp [doubleQ, hc]
      rw [hd] at hf ⊢
      obtain ⟨f', rfl⟩ : ∃ f', f = f' + 1 := ⟨f - 1, by simp at hf; omega⟩
      obtain ⟨c2, r, hcr⟩ := append_singleton_cons (doubleQ cs) '"'
      rw [List.cons_append, hcr, stdQuotedAux, if_neg hc, ← hcr]
      have := ih f' (by simp at hf; omega)
      simp only [this]

/-- The record of the specification's round-trip example. -/
def c5Record : Transaction :=
  { date := lc "10/21/2025", description := lc "Interac purchase",
    vendor := lc "Smith, John", amount := lc "$5.00" }

/-- C5: in `convertToCSV`'s row emission, the date field is always
quote-wrapped with internal quotes doubled; amount and balance are
comma-stripped and never quote-wrapped; every other field is quote-wrapped
exactly when it contains a comma, quote, or newline; a quote-wrapped field
re-split by the standard CSV rule recovers its value exactly, and the
serialized record with vendor "Smith, John" round-trips. -/
theorem c5_row_emission :
    (∀ t : Transaction, csvFieldValue (lc "date") t = quoteWrap t.date) ∧
    (∀ t : Transaction,
      csvFieldValue (lc "amount") t = t.amount.filter (fun c => c ≠ ',') ∧
      csvFieldValue (lc "balance") t = t.balance.filter (fun c => c ≠ ',')) ∧
    (∀ (h : Str) (t : Transaction), h ≠ lc "amount" → h ≠ lc "balance" →
      h ≠ lc "date" →
      csvFieldValue h t =
        if hasSpecial (transactionField t h) = true then
          quoteWrap (transactionField t h)
        else transactionField t h) ∧
    (∀ v : Str, stdTakeField (quoteWrap v) = (v, [])) ∧
    (convertToCSV [c5Record] =
      lc "Date,Description,Vendor/Payee,Amount\n\"10/21/2025\",Interac purchase,\"Smith, John\",$5.00" ∧
     stdSplitFields (lc "\"10/21/2025\",Interac purchase,\"Smith, John\",$5.00") =
       [lc "10/21/2025", lc "Interac purchase", lc "Smith, John", lc "$5.00"]) := by
  refine ⟨?_, ?_, ?_, ?_, by decide, by decide⟩
  · intro t
    have hv : transactionField t (lc "date") = t.date := by
      unfold transactionField
      rw [if_pos rfl]
    unfold csvFieldValue
    rw [if_neg (show ¬(lc "date" = lc "amount" ∨ lc "date" = lc "balance") by decide),
      if_pos rfl]
    simp [hv]
  · intro t
    constructor
    · have hv : transactionField t (lc "amount") = t.amount := by
        unfold transactionField
        rw [if_neg (by decide), if_neg (by decide), if_neg (by decide),
          if_neg (by decide), if_pos rfl]
      unfold csvFieldValue
      rw [if_pos (Or.inl rfl)]
      simp [hv]
    · have hv : transactionField t (lc "balance") = t.balance := by
        unfold transactionField
        rw [if_neg (by decide), if_neg (by decide), if_neg (by decide),
          if_neg (by decide), if_neg (by decide), if_pos rfl]
      unfold csvFieldValue
      rw [if_pos (Or.inr rfl)]
      simp [hv]
  · intro h t ha hb hd
    simp only [csvFieldValue]
    rw [if_neg (by exact fun hor => hor.elim ha hb), if_neg hd]
  · intro v
    have hq : quoteWrap v = '"' :: (doubleQ v ++ ['"']) := rfl
    rw [hq]
    show stdQuoted (doubleQ v ++ ['"']) = (v, [])
    unfold stdQuoted
    exact stdQuotedAux_roundtrip v (doubleQ v ++ ['"']).length (by simp)

theorem c5_row_emission_witness :
    csvFieldValue (lc "vendor") c5Record = lc "\"Smith, John\"" := by
  have h := c5_row_emission.2.2.1 (lc "vendor") c5Record (by decide) (by decide)
    (by decide)
  rw [h]
  decide

/-! C2: column selection. -/

/-- A record whose only non-empty fields are `description` and `type`. -/
def c2Record : Transaction := { description := lc "abc", type := lc "Interac" }

/-- C2 counterexample: a record with a non-empty `type` still yields no Type
column — `convertToCSV`'s ordered header list omits `type`, so the claimed
"appears iff some record has a non-empty value (including type)" fails. -/
theorem c2_type_column_counterexample :
    c2Record.type ≠ [] ∧
    convertToCSV [c2Record] = lc "Description\nabc" ∧
    activeHeaders [c2Record] = [lc "description"] := by decide

/-- C2 (amended): the emitted columns are the fixed ordered subset of
date, accountType, description, vendor, amount, balance, reference — a
column among these seven appears iff some record has a non-empty value for
it, the selection is independent of record insertion order, the `type`
field is never emitted, and the empty record set yields the empty string. -/
theorem c2_column_selection_amended :
    (convertToCSV [] = []) ∧
    (∀ (ts : List Transaction) (h : Str),
      h ∈ activeHeaders ts ↔
        h ∈ orderedHeaders ∧ ∃ t ∈ ts, transactionField t h ≠ []) ∧
    (∀ ts : List Transaction, (activeHeaders ts).Sublist orderedHeaders) ∧
    (∀ ts ts' : List Transaction, ts.Perm ts' → activeHeaders ts = activeHeaders ts') ∧
    (∀ ts : List Transaction, lc "type" ∉ activeHeaders ts) := by
  refine ⟨rfl, ?_, ?_, ?_, ?_⟩
  · intro ts h
    simp [activeHeaders, List.mem_filter, List.any_eq_true]
  · intro ts
    exact List.filter_sublist orderedHeaders
  · intro ts ts' hperm
    unfold activeHeaders
    apply List.filter_congr
    intro h _
    cases ha : ts.any (fun t => transactionField t h ≠ []) with
    | true =>
      obtain ⟨x, hx, hfx⟩ := List.any_eq_true.mp ha
      exact (List.any_eq_true.mpr ⟨x, hperm.mem_iff.mp hx, hfx⟩).symm
    | false =>
      cases hb : ts'.any (fun t => transactionField t h ≠ []) with
      | true =>
        obtain ⟨x, hx, hfx⟩ := List.any_eq_true.mp hb
        have : ts.any (fun t => transactionField t h ≠ []) = true :=
          List.any_eq_true.mpr ⟨x, hperm.mem_iff.mpr hx, hfx⟩
        rw [ha] at this
        exact absurd this (by simp)
      | false => rfl
  · intro ts hmem
    have h1 : lc "type" ∈ orderedHeaders := (List.mem_filter.mp hmem).1
    exact absurd h1 (by decide)

/-- A second record for the permutation witness. -/
def c2Record2 : Transaction := { date := lc "01/02/2025", amount := lc "$1.00" }

theorem c2_column_selection_amended_witness :
    activeHeaders [c2Record, c2Record2] = activeHeaders [c2Record2, c2Record] ∧
    (lc "description" ∈ activeHeaders [c2Record] ↔
      lc "description" ∈ orderedHeaders ∧
        ∃ t ∈ [c2Record], transactionField t (lc "description") ≠ []) :=
  ⟨c2_column_selection_amended.2.2.2.1 [c2Record, c2Record2]
      [c2Record2, c2Record] (by decide),
   c2_column_selection_amended.2.1 [c2Record] (lc "description")⟩

/-! C9: the two CSV serializers. -/

/-- A record with a date and a thousands-separated amount. -/
def c9Record : Transaction := { date := lc "01/02/2025", amount := lc "1,234.56" }

/-- C9 counterexample: the csvExporter serializer and the popup's duplicate
produce different output already for one record with only a date and an
amount. -/
theorem c9_serializers_counterexample :
    convertToCSV [c9Record] ≠ popupConvertToCSV [objOfTransaction c9Record] := by
  decide

/-- C9 (amended): the two serializers are not equivalent: the popup emits
every record key as a lowercase header in insertion order regardless of
emptiness, quotes the date only when it contains a special character, and
quotes (rather than strips) comma-bearing amounts; on `c9Record` the two
outputs are the distinct strings below. -/
theorem c9_serializers_amended :
    convertToCSV [c9Record] = lc "Date,Amount\n\"01/02/2025\",1234.56" ∧
    popupConvertToCSV [objOfTransaction c9Record] =
      lc "date,description,vendor,amount,type,balance,reference,accountType\n01/02/2025,,,\"1,234.56\",,,," ∧
    lc "Date,Amount\n\"01/02/2025\",1234.56" ≠
      lc "date,description,vendor,amount,type,balance,reference,accountType\n01/02/2025,,,\"1,234.56\",,,," := by
  decide

/-! C4: date normalization. -/

/-- C4 counterexample: an unrecognized input carrying surrounding whitespace
is returned trimmed, not unchanged. -/
theorem c4_unmatched_counterexample :
    normalizeDate (lc " hello ") = lc "hello" ∧ lc "hello" ≠ lc " hello " := by
  decide

/-- C4 (amended): all five supported shapes of October 21, 2025 normalize to
"21/10/2025", and an input matching none of the anchored shapes is returned
trimmed (hence unchanged exactly when it carries no surrounding
whitespace). -/
theorem c4_normalize_date_amended :
    normalizeDate (lc "10/21/2025") = lc "21/10/2025" ∧
    normalizeDate (lc "10-21-2025") = lc "21/10/2025" ∧
    normalizeDate (lc "2025-10-21") = lc "21/10/2025" ∧
    normalizeDate (lc "Oct 21, 2025") = lc "21/10/2025" ∧
    normalizeDate (lc "October 21 2025") = lc "21/10/2025" ∧
    (∀ s : Str,
      reFullMatch monthNamePattern (jsTrim s) = none →
      reFullMatch mmddyyyyPattern (jsTrim s) = none →
      reFullMatch mmddyyyyDashPattern (jsTrim s) = none →
      reFullMatch yyyymmddPattern (jsTrim s) = none →
      normalizeDate s = jsTrim s) := by
  refine ⟨by decide, by decide, by decide, by decide, by decide, ?_⟩
  intro s h1 h2 h3 h4
  simp only [normalizeDate, h1, h2, h3, h4]

theorem c4_normalize_date_amended_witness :
    normalizeDate (lc "hello") = jsTrim (lc "hello") :=
  c4_normalize_date_amended.2.2.2.2.2 (lc "hello")
    (Option.isNone_iff_eq_none.mp (by decide))
    (Option.isNone_iff_eq_none.mp (by decide))
    (Option.isNone_iff_eq_none.mp (by decide))
    (Option.isNone_iff_eq_none.mp (by decide))

/-! C1: credit-row amount polarity. -/

/-- A credit row whose withdraw column already carries a minus sign. -/
def c1CxRow : Row :=
  { firstCellHeaders := some (lc "cc-date cc-desc"),
    dateCellText := some (lc "10/21/2025"),
    descDivTexts := some [lc "STORE"],
    ccWithdrawText := some (lc "-$50.00") }

/-- C1 counterexample: on a credit row with withdraw text "-$50.00" the
parser prefixes another minus ("-$-$50.00") even though one is already
present, so "a minus sign prefixed only if one is not already present"
fails. -/
theorem c1_withdraw_minus_counterexample :
    (parseRBCTransactionRow c1CxRow).accountType = lc "credit" ∧
    c1CxRow.ccWithdrawText = some (lc "-$50.00") ∧
    leadsWith (lc "-") (lc "-$50.00") = true ∧
    (parseRBCTransactionRow c1CxRow).amount = lc "-$-$50.00" ∧
    lc "-$-$50.00" ≠ lc "-$50.00" := by decide

/-- C1 (amended): for every credit-account row, a non-empty withdraw column
text is forced negative by unconditionally prefixing a minus ('-' before the
text when it already starts with '$', else "-$"); a non-empty deposit column
text (when the withdraw column is absent or blank) has one leading minus
(and adjacent dollar sign) stripped and a dollar sign ensured. -/
theorem c1_credit_polarity_amended :
    ∀ row : Row,
      jsIncludes (row.firstCellHeaders.getD []) (lc "cc-date") = true →
      (∀ w, row.ccWithdrawText = some w → jsTrim w ≠ [] →
        (parseRBCTransactionRow row).amount =
          (if leadsWith (lc "$") (jsTrim w) = true then '-' :: jsTrim w
           else '-' :: '$' :: jsTrim w)) ∧
      ((match row.ccWithdrawText with
        | some w => jsTrim w = []
        | none => True) →
       ∀ d, row.ccDepositText = some d → jsTrim d ≠ [] →
        (parseRBCTransactionRow row).amount =
          (if leadsWith (lc "$") (stripLeadMinusDollar (jsTrim d)) = true then
            stripLeadMinusDollar (jsTrim d)
           else '$' :: stripLeadMinusDollar (jsTrim d))) := by
  intro row hcc
  have hne : row.firstCellHeaders.getD [] ≠ [] := by
    intro h0
    rw [h0] at hcc
    exact absurd hcc (by decide)
  have hat : rbcAccountType row = lc "credit" := by
    simp only [rbcAccountType]
    split
    · rfl
    next hfalse =>
      refine absurd ?_ hfalse
      rw [Bool.and_eq_true]
      exact ⟨decide_eq_true hne, hcc⟩
  have hpa : (parseRBCTransactionRow row).amount = rbcAmount row := rfl
  constructor
  · intro w hw hwt
    have hca : creditAmount row =
        (if leadsWith (lc "$") (jsTrim w) = true then '-' :: jsTrim w
         else '-' :: '$' :: jsTrim w) := by
      simp only [creditAmount, hw]
      rw [if_pos hwt]
    have hcane : creditAmount row ≠ [] := by
      rw [hca]
      split <;> exact List.cons_ne_nil _ _
    rw [hpa]
    simp only [rbcAmount]
    rw [hat, if_pos rfl, if_neg hcane, hca]
  · intro hwd d hd hdt
    have hca : creditAmount row = creditDepositAmount row := by
      cases hwty : row.ccWithdrawText with
      | none => simp only [creditAmount, hwty]
      | some w =>
        rw [hwty] at hwd
        simp only [] at hwd
        simp only [creditAmount, hwty]
        rw [if_neg (by simpa using hwd)]
    have hcda : creditDepositAmount row =
        (if leadsWith (lc "$") (stripLeadMinusDollar (jsTrim d)) = true then
          stripLeadMinusDollar (jsTrim d)
         else '$' :: stripLeadMinusDollar (jsTrim d)) := by
      simp only [creditDepositAmount, hd]
      rw [if_pos hdt]
    have hne2 : creditAmount row ≠ [] := by
      rw [hca, hcda]
      split
      next hlead =>
        intro h0
        rw [h0] at hlead
        exact absurd hlead (by decide)
      next => exact List.cons_ne_nil _ _
    rw [hpa]
    simp only [rbcAmount]
    rw [hat, if_pos rfl, if_neg hne2, hca, hcda]

/-- A credit row with withdraw text "50.00". -/
def c1WithdrawRow : Row :=
  { firstCellHeaders := some (lc "cc-date cc-desc"),
    dateCellText := some (lc "10/21/2025"),
    descDivTexts := some [lc "STORE XYZ"],
    ccWithdrawText := some (lc "50.00") }

/-- A credit row with deposit text "-$75.00" and no withdraw text. -/
def c1DepositRow : Row :=
  { firstCellHeaders := some (lc "cc-date cc-desc"),
    dateCellText := some (lc "10/21/2025"),
    descDivTexts := some [lc "PAYMENT - THANK YOU"],
    ccDepositText := some (lc "-$75.00") }

theorem c1_credit_polarity_amended_witness :
    (parseRBCTransactionRow c1WithdrawRow).amount = lc "-$50.00" ∧
    (parseRBCTransactionRow c1DepositRow).amount = lc "$75.00" := by
  constructor
  · have h := (c1_credit_polarity_amended c1WithdrawRow (by decide)).1
      (lc "50.00") rfl (by decide)
    rw [h]
    decide
  · have h := (c1_credit_polarity_amended c1DepositRow (by decide)).2
      trivial (lc "-$75.00") rfl (by decide)
    rw [h]
    decide

/-! C10 support. -/

/-- A parse starting at an opening parenthesis fails. -/
theorem jsParseFloatCore_open_paren (w : Str) : jsParseFloatCore ('(' :: w) = none := by
  simp [jsParseFloatCore, leadsWith, lc, isDigitB]

/-- A `takeWhile` slice satisfies its predicate throughout. -/
theorem all_takeWhile_self (p : Char → Bool) : ∀ l : Str, (l.takeWhile p).all p = true := by
  intro l
  induction l with
  | nil => rfl
  | cons c cs ih =>
    by_cases hc : p c = true
    · simp [List.takeWhile_cons, hc, ih]
    · simp [List.takeWhile_cons, hc]

/-- Every string splits as leading whitespace, its trim, and trailing
whitespace. -/
theorem jsTrim_decomp (s : Str) :
    ∃ a b, s = a ++ jsTrim s ++ b ∧ a.all jsWs = true ∧ b.all jsWs = true := by
  refine ⟨s.takeWhile jsWs, ((s.dropWhile jsWs).reverse.takeWhile jsWs).reverse,
    ?_, all_takeWhile_self jsWs s, ?_⟩
  · have hd : s.dropWhile jsWs =
        jsTrim s ++ ((s.dropWhile jsWs).reverse.takeWhile jsWs).reverse := by
      have h2 := @List.takeWhile_append_dropWhile _ jsWs (s.dropWhile jsWs).reverse
      have h3 := congrArg List.reverse h2
      rw [List.reverse_append] at h3
      simp only [List.reverse_reverse] at h3
      exact h3.symm
    conv_lhs => rw [← @List.takeWhile_append_dropWhile _ jsWs s, hd]
    rw [List.append_assoc]
  · rw [List.all_eq_true]
    intro x hx
    rw [List.mem_reverse] at hx
    exact List.all_eq_true.mp (all_takeWhile_self jsWs _) x hx

/-- Dropping a predicate over an all-satisfying prefix skips it entirely. -/
theorem dropWhile_append_of_all {p : Char → Bool} :
    ∀ (a l : Str), a.all p = true → (a ++ l).dropWhile p = l.dropWhile p := by
  intro a
  induction a with
  | nil => intro l _; rfl
  | cons c cs ih =>
    intro l hall
    simp only [List.all_cons, Bool.and_eq_true] at hall
    rw [List.cons_append, List.dropWhile_cons, if_pos hall.1]
    exact ih l hall.2

/-- A successful match of `(cls p) ⬝ r` pins the first input character. -/
theorem reM_seq_cls_head (p : Char → Bool) (r : RE) :
    ∀ (fuel : Nat) (st st' : MSt), st' ∈ reM fuel (.seq (.cls p) r) st →
      ∃ c cs, st.rest = c :: cs ∧ p c = true := by
  intro fuel st st' h
  cases fuel with
  | zero => simp [reM] at h
  | succ f =>
    simp only [reM, List.mem_flatMap] at h
    obtain ⟨mid, hmid, -⟩ := h
    cases f with
    | zero => simp [reM] at hmid
    | succ f2 =>
      obtain ⟨sr, sp, sc⟩ := st
      simp only [reM] at hmid
      cases sr with
      | nil => simp at hmid
      | cons c cs =>
        by_cases hp : p c = true
        · exact ⟨c, cs, rfl, hp⟩
        · simp [hp] at hmid

/-- A successful match of `(cls p) ⬝ (cls q) ⬝ r` pins the first two input
characters. -/
theorem reM_seq_cls_cls_head (p q : Char → Bool) (r : RE) :
    ∀ (fuel : Nat) (st st' : MSt),
      st' ∈ reM fuel (.seq (.cls p) (.seq (.cls q) r)) st →
      ∃ c1 c2 cs, st.rest = c1 :: c2 :: cs ∧ p c1 = true ∧ q c2 = true := by
  intro fuel st st' h
  cases fuel with
  | zero => simp [reM] at h
  | succ f =>
    simp only [reM, List.mem_flatMap] at h
    obtain ⟨mid, hmid, hst'⟩ := h
    cases f with
    | zero => simp [reM] at hmid
    | succ f2 =>
      obtain ⟨sr, sp, sc⟩ := st
      simp only [reM] at hmid
      cases sr with
      | nil => simp at hmid
      | cons c cs =>
        by_cases hp : p c = true
        · simp only [hp, if_true, List.mem_singleton] at hmid
          subst hmid
          obtain ⟨c2, cs2, hcs, hq⟩ :=
            reM_seq_cls_head q r (f2 + 1) ⟨cs, some c, sc⟩ st' hst'
          refine ⟨c, c2, cs2, ?_, hp, hq⟩
          simp only at hcs
          rw [hcs]
        · simp [hp] at hmid

/-- An anchored match of `(cls p) ⬝ r` pins the string's first character. -/
theorem reFullMatch_seq_cls_head (p : Char → Bool) (r : RE) (s : Str) (caps : Caps)
    (h : reFullMatch (.seq (.cls p) r) s = some caps) :
    ∃ c cs, s = c :: cs ∧ p c = true := by
  unfold reFullMatch at h
  obtain ⟨st, hst, -⟩ := Option.map_eq_some'.mp h
  have hmem := (List.mem_filter.mp (mem_of_head?_eq hst)).1
  exact reM_seq_cls_head p r _ _ st hmem

/-- An anchored match of `(cls p) ⬝ (cls q) ⬝ r` pins the string's first two
characters. -/
theorem reFullMatch_seq_cls_cls_head (p q : Char → Bool) (r : RE) (s : Str)
    (caps : Caps) (h : reFullMatch (.seq (.cls p) (.seq (.cls q) r)) s = some caps) :
    ∃ c1 c2 cs, s = c1 :: c2 :: cs ∧ p c1 = true ∧ q c2 = true := by
  unfold reFullMatch at h
  obtain ⟨st, hst, -⟩ := Option.map_eq_some'.mp h
  have hmem := (List.mem_filter.mp (mem_of_head?_eq hst)).1
  exact reM_seq_cls_cls_head p q r _ _ st hmem

/-- Whitespace is never a dollar sign or comma. -/
theorem jsWs_keep (c : Char) (hc : jsWs c = true) :
    (decide ¬(c = ',' ∨ c = '$')) = true := by
  rw [decide_eq_true_eq]
  rintro (rfl | rfl) <;> exact absurd hc (by decide)

/-- C10: every input whose trimmed text matches the parenthesized-negative
amount shape `(123.45)` or `$(123.45)` is classified as an amount by
`isAmount`, yet `normalizeAmount` returns it unchanged — the parenthesis
makes the decimal parse fail, so no signed two-decimal form is ever
produced. -/
theorem c10_paren_amounts :
    ∀ s : Str,
      ((reFullMatch amountParenPattern (jsTrim s)).isSome = true ∨
       (reFullMatch amountDollarParenPattern (jsTrim s)).isSome = true) →
      normalizeAmount s = s ∧ isAmount s = true := by
  intro s hpat
  obtain ⟨a, b, hdecomp, hwa, hwb⟩ := jsTrim_decomp s
  have hshape : ∃ u, jsTrim s = '(' :: u ∨ jsTrim s = '$' :: '(' :: u := by
    rcases hpat with h | h
    · obtain ⟨caps, hc⟩ := Option.isSome_iff_exists.mp h
      obtain ⟨c, cs, hcs, hp⟩ :=
        reFullMatch_seq_cls_head (fun x => decide (x = '('))
          (.seq reAmountCore (.seq (reChr ')') .eps)) (jsTrim s) caps hc
      have : c = '(' := by simpa using hp
      subst this
      exact ⟨cs, Or.inl hcs⟩
    · obtain ⟨caps, hc⟩ := Option.isSome_iff_exists.mp h
      obtain ⟨c1, c2, cs, hcs, hp, hq⟩ :=
        reFullMatch_seq_cls_cls_head (fun x => decide (x = '$'))
          (fun x => decide (x = '('))
          (.seq reAmountCore (.seq (reChr ')') .eps)) (jsTrim s) caps hc
      have h1 : c1 = '$' := by simpa using hp
      have h2 : c2 = '(' := by simpa using hq
      subst h1; subst h2
      exact ⟨cs, Or.inr hcs⟩
  obtain ⟨u, hu⟩ := hshape
  have hsne : s ≠ [] := by
    intro h0
    subst h0
    rcases hu with hu | hu <;> simp [jsTrim] at hu
  have hfa : a.filter (fun c => decide ¬(c = ',' ∨ c = '$')) = a :=
    List.filter_eq_self.mpr (fun x hx => jsWs_keep x (List.all_eq_true.mp hwa x hx))
  constructor
  · have hclean :
        jsParseFloat (s.filter (fun c => decide ¬(c = ',' ∨ c = '$'))) = none := by
      rcases hu with hu | hu
      · rw [hdecomp, hu]
        rw [List.filter_append, List.filter_append, hfa]
        rw [List.filter_cons, if_pos (by decide)]
        rw [List.append_assoc, List.cons_append]
        unfold jsParseFloat
        rw [dropWhile_append_of_all a _ hwa]
        rw [List.dropWhile_cons, if_neg (by decide)]
        exact jsParseFloatCore_open_paren _
      · rw [hdecomp, hu]
        rw [List.filter_append, List.filter_append, hfa]
        rw [List.filter_cons, if_neg (by decide)]
        rw [List.filter_cons, if_pos (by decide)]
        rw [List.append_assoc, List.cons_append]
        unfold jsParseFloat
        rw [dropWhile_append_of_all a _ hwa]
        rw [List.dropWhile_cons, if_neg (by decide)]
        exact jsParseFloatCore_open_paren _
    simp only [normalizeAmount, hclean]
  · unfold isAmount
    rw [if_neg hsne]
    refine List.any_eq_true.mpr ?_
    rcases hpat with h | h
    · refine ⟨amountParenPattern, ?_, h⟩
      unfold amountPatterns
      exact List.mem_cons_of_mem _ (List.mem_cons_of_mem _ (List.mem_cons_of_mem _
        (List.mem_cons_of_mem _ (List.mem_cons_of_mem _ (List.mem_cons_self _ _)))))
    · refine ⟨amountDollarParenPattern, ?_, h⟩
      unfold amountPatterns
      exact List.mem_cons_of_mem _ (List.mem_cons_of_mem _ (List.mem_cons_of_mem _
        (List.mem_cons_of_mem _ (List.mem_cons_of_mem _ (List.mem_cons_of_mem _
          (List.mem_cons_self _ _))))))

theorem c10_paren_amounts_witness :
    (normalizeAmount (lc "(123.45)") = lc "(123.45)" ∧
      isAmount (lc "(123.45)") = true) ∧
    (normalizeAmount (lc "$(123.45)") = lc "$(123.45)" ∧
      isAmount (lc "$(123.45)") = true) :=
  ⟨c10_paren_amounts (lc "(123.45)") (Or.inl (by decide)),
   c10_paren_amounts (lc "$(123.45)") (Or.inr (by decide))⟩
